import Mathlib

set_option maxHeartbeats 1000000
set_option linter.unusedVariables false
set_option linter.unreachableTactic false
set_option linter.unusedTactic false

namespace Fcc

/-- AST node tags (from inc/ast.h, consumed by src/emitter.c). Besides the
statement and top-level tags the emitter dispatches on, a few representative
expression tags are included; `astIsValueTag` recognises exactly those. -/
inductive astTag where
  | astModule
  | astUsing
  | astFnImpl
  | astDecl
  | astCode
  | astBranch
  | astLoop
  | astIter
  | astReturn
  | astBreak
  | astContinue
  | astEmpty
  | astLiteral
  | astBOP
  | astCall
  deriving DecidableEq, Repr

/-- Modelled from the spec: `astIsValueTag` (inc/ast.h is not under src/)
holds of the expression tags, which at statement position are lowered as bare
expression statements with a discard-result placement request. -/
def astIsValueTag : astTag → Bool
  | .astLiteral => true
  | .astBOP => true
  | .astCall => true
  | _ => false

/-- Symbol tags (from inc/sym.h): lexical scopes, parameters, local
identifiers/variables, and function symbols. -/
inductive symTag where
  | symScope
  | symId
  | symParam
  | symFn
  deriving DecidableEq, Repr

/-- Modelled from the spec: types (inc/type.h is not under src/) are an
external collaborator; the emitter only consumes a type's storage size and,
for function types, its return type, via `typeGetSize` and `typeGetReturn`. -/
inductive type where
  | basic (size : Nat)
  | fn (ret : type) (size : Nat)
  deriving DecidableEq, Repr

/-- A declared symbol: tag, declared type, ordered child symbols (parameter
lists and nested scopes), the output-only stack offset written by the frame
layout pass, and the lazily assigned label identifier (0 = unset). -/
inductive sym where
  | mk (tag : symTag) (dt : type) (children : List sym) (offset : Int) (label : Nat)
  deriving Repr

def sym.tag : sym → symTag
  | .mk t _ _ _ _ => t

def sym.dt : sym → type
  | .mk _ d _ _ _ => d

def sym.children : sym → List sym
  | .mk _ _ c _ _ => c

def sym.offset : sym → Int
  | .mk _ _ _ o _ => o

def sym.label : sym → Nat
  | .mk _ _ _ _ l => l

def sym.withOffset : sym → Int → sym
  | .mk t d c _ l, o => .mk t d c o l

def sym.withLabel : sym → Nat → sym
  | .mk t d c o _, l => .mk t d c o l

def sym.withChildren : sym → List sym → sym
  | .mk t d _ o l, c => .mk t d c o l

/-- Modelled from the spec: the architecture descriptor
(inc/architecture.h is not under src/) carries the word size in bytes and the
symbol-name-mangling rule, a function from a function symbol to a label. -/
structure architecture where
  wordsize : Nat
  symbolMangler : sym → Nat

/-- Modelled from the spec: `typeGetSize` returns a type's storage size. -/
def typeGetSize (arch : architecture) : type → Nat
  | .basic s => s
  | .fn _ s => s

/-- Modelled from the spec: `typeGetReturn` projects a function type onto its
return type. -/
def typeGetReturn : type → type
  | .basic s => .basic s
  | .fn ret _ => ret

mutual

/-- Depth-first, declaration-order walk assigning stack offsets to automatic
variables, from src/emitter.c emitterScopeAssignOffsets: scope-tagged children
recurse threading the running offset, identifier-tagged children decrement the
running offset by their type size and receive the decremented value, all other
children are skipped. Returns the updated symbol and the final offset (the C
code mutates symbols in place and returns the offset). -/
def emitterScopeAssignOffsets (arch : architecture) (Scope : sym) (offset : Int) : sym × Int :=
  match Scope with
  | .mk t dt children o lbl =>
    let p := scopeAssignList arch children offset
    (sym.mk t dt p.1 o lbl, p.2)
termination_by sizeOf Scope

/-- Walks one child list for `emitterScopeAssignOffsets` (the for-loop in the
C function). -/
def scopeAssignList (arch : architecture) (l : List sym) (offset : Int) : List sym × Int :=
  match l with
  | [] => ([], offset)
  | s :: rest =>
    let p :=
      if s.tag = symTag.symScope then
        emitterScopeAssignOffsets arch s offset
      else if s.tag = symTag.symId then
        let off2 := offset - (typeGetSize arch s.dt : Int)
        (s.withOffset off2, off2)
      else
        (s, offset)
    let q := scopeAssignList arch rest p.2
    (p.1 :: q.1, q.2)
termination_by sizeOf l

end

/-- Parameter-offset assignment loop of emitterFnAllocateStack: while the
current child is a parameter, assign it the running offset and advance the
offset by the parameter's type size; stop at the first non-parameter child. -/
def assignParams (arch : architecture) : List sym → Int → List sym
  | [], _ => []
  | s :: rest, lastOffset =>
    if s.tag = symTag.symParam then
      s.withOffset lastOffset :: assignParams arch rest (lastOffset + (typeGetSize arch s.dt : Int))
    else
      s :: rest

/-- Stack-frame layout for one function, from src/emitter.c
emitterFnAllocateStack: parameters start at two words (return address and
saved base pointer), plus one more word when the return value exceeds one word
(returned through a temporary); automatic variables are then assigned by
`emitterScopeAssignOffsets` starting from 0, and the frame size is the
negation of the final running offset. Returns the updated function symbol and
the frame size. -/
def emitterFnAllocateStack (arch : architecture) (fn : sym) : sym × Int :=
  let lastOffset : Int :=
    2 * (arch.wordsize : Int) +
      (if arch.wordsize < typeGetSize arch (typeGetReturn fn.dt) then (arch.wordsize : Int) else 0)
  let fn1 := fn.withChildren (assignParams arch fn.children lastOffset)
  let p := emitterScopeAssignOffsets arch fn1 0
  (p.1, -p.2)

/-- Placement requests handed to the expression-emission collaborator:
discard the value, produce a flags/boolean result, or place the value in the
return slot per the calling convention. -/
inductive request where
  | requestVoid
  | requestFlags
  | requestReturn
  deriving DecidableEq, Repr

/-- Human-readable label kinds, for label creation (cosmetic only). -/
inductive labelKind where
  | labelReturn
  | labelElse
  | labelEndIf
  | labelWhile
  | labelFor
  | labelBreak
  | labelContinue
  deriving DecidableEq, Repr

/-- Operands as the emitter sees them: the defined "undefined" operand
(operandCreate(operandUndefined)), labels created by the assembly sink, and
the opaque result handed back by the expression-emission collaborator. -/
inductive operand where
  | undefined
  | labelOp (kind : labelKind) (id : Nat)
  | exprResult (req : request)
  deriving DecidableEq, Repr

/-- An AST node: a tag, an ordered child list (firstChild/nextSibling in C),
the two named child slots l and r (null pointers become `none`), and for
function-implementation nodes the index of the associated symbol in the
symbol store (a non-owning mutable reference in C). -/
inductive ast where
  | mk (tag : astTag) (children : List ast) (l : Option ast) (r : Option ast)
      (symbol : Option Nat)

def ast.tag : ast → astTag
  | .mk t _ _ _ _ => t

def ast.children : ast → List ast
  | .mk _ c _ _ _ => c

def ast.l : ast → Option ast
  | .mk _ _ l _ _ => l

def ast.r : ast → Option ast
  | .mk _ _ _ r _ => r

def ast.symbol : ast → Option Nat
  | .mk _ _ _ _ s => s

/-- One assembly-sink primitive, from the spec §6 list (asm.c is not under
src/): labels, unconditional jumps, conditional branches that fire when the
condition operand is false, label definitions, comments, prologues and
epilogues, and scope enter/leave markers; `eval` and `declEmit` record the
delegations to the expression and declaration collaborators. A jump or label
target read from a context field is an `Option operand`: `none` models a read
of a field that no code ever assigned. -/
inductive instr where
  | filePrologue
  | fileEpilogue
  | comment
  | enter
  | leave
  | jump (target : Option operand)
  | branch (cond : operand) (target : operand)
  | labelDef (target : Option operand)
  | fnPrologue (label : Nat) (stacksize : Int)
  | fnEpilogue (target : operand)
  | eval (node : ast) (req : request)
  | declEmit (node : ast)

/-- The Emission Context (emitterCtx in src/emitter.c): architecture
descriptor, the symbol store (C symbols are mutable heap objects, modelled as
an index-keyed store), the three current jump-target fields, the assembly
sink's label counter and the emitted instruction stream. The three target
fields are `Option operand` because the C struct is malloc'd: a field the
emitter never assigned holds an indeterminate value, modelled as `none`. -/
structure emitterCtx where
  arch : architecture
  syms : Nat → sym
  labelReturnTo : Option operand
  labelBreakTo : Option operand
  labelContinueTo : Option operand
  nextLabel : Nat
  out : List instr

/-- Modelled from the spec: asmComment emits a comment/marker. -/
def asmComment (ctx : emitterCtx) : emitterCtx :=
  { ctx with out := ctx.out ++ [instr.comment] }

/-- Modelled from the spec: asmEnter opens a lexical emission scope. -/
def asmEnter (ctx : emitterCtx) : emitterCtx :=
  { ctx with out := ctx.out ++ [instr.enter] }

/-- Modelled from the spec: asmLeave closes a lexical emission scope. -/
def asmLeave (ctx : emitterCtx) : emitterCtx :=
  { ctx with out := ctx.out ++ [instr.leave] }

/-- Modelled from the spec: asmJump emits an unconditional jump. -/
def asmJump (ctx : emitterCtx) (target : Option operand) : emitterCtx :=
  { ctx with out := ctx.out ++ [instr.jump target] }

/-- Modelled from the spec: asmBranch emits a conditional jump to `target`
that fires when the condition operand `cond` is false. -/
def asmBranch (ctx : emitterCtx) (cond : operand) (target : operand) : emitterCtx :=
  { ctx with out := ctx.out ++ [instr.branch cond target] }

/-- Modelled from the spec: asmLabel emits a label definition. -/
def asmLabel (ctx : emitterCtx) (target : Option operand) : emitterCtx :=
  { ctx with out := ctx.out ++ [instr.labelDef target] }

/-- Modelled from the spec: asmCreateLabel creates a fresh label of the given
kind; freshness is realised by the sink's counter. -/
def asmCreateLabel (ctx : emitterCtx) (kind : labelKind) : operand × emitterCtx :=
  (operand.labelOp kind ctx.nextLabel, { ctx with nextLabel := ctx.nextLabel + 1 })

/-- Modelled from the spec: asmFnPrologue emits a function prologue carrying
the function's label and frame size. -/
def asmFnPrologue (ctx : emitterCtx) (label : Nat) (stacksize : Int) : emitterCtx :=
  { ctx with out := ctx.out ++ [instr.fnPrologue label stacksize] }

/-- Modelled from the spec: asmFnEpilogue emits the single function epilogue
at the given return label. -/
def asmFnEpilogue (ctx : emitterCtx) (target : operand) : emitterCtx :=
  { ctx with out := ctx.out ++ [instr.fnEpilogue target] }

/-- Modelled from the spec: asmFilePrologue emits the file prologue. -/
def asmFilePrologue (ctx : emitterCtx) : emitterCtx :=
  { ctx with out := ctx.out ++ [instr.filePrologue] }

/-- Modelled from the spec: asmFileEpilogue emits the file epilogue. -/
def asmFileEpilogue (ctx : emitterCtx) : emitterCtx :=
  { ctx with out := ctx.out ++ [instr.fileEpilogue] }

/-- Modelled from the spec: the expression-emission collaborator
(emitter-value.c is not under src/) evaluates one expression honouring a
placement request and returns an operand the core never inspects except to
pass it straight into a branch emission. -/
def emitterValue (ctx : emitterCtx) (node : ast) (req : request) : operand × emitterCtx :=
  (operand.exprResult req, { ctx with out := ctx.out ++ [instr.eval node req] })

/-- Modelled from the spec: the declaration collaborator (emitter-decl.c is
not under src/) fully handles one declaration node. -/
def emitterDecl (ctx : emitterCtx) (node : ast) : emitterCtx :=
  { ctx with out := ctx.out ++ [instr.declEmit node] }

/-- The internal-consistency failure: debugErrorUnhandled names the function
and the offending tag. Modelled from the spec: debug.c is not under src/, and
per §7 the failure is fatal and aborts the whole compilation immediately, so
it is embedded as the error of an `Except` that every caller propagates.
`nullDeref` models the crash the C code makes when it dereferences a null
child pointer. -/
inductive emitError where
  | unhandled (fn : String) (tag : astTag)
  | nullDeref (fn : String)
  deriving DecidableEq, Repr

/-- Sequencing of fallible lowering steps (explicit, for proof convenience). -/
def bindE (x : Except emitError emitterCtx) (f : emitterCtx → Except emitError emitterCtx) :
    Except emitError emitterCtx :=
  match x with
  | .ok c => f c
  | .error e => .error e

/-- Pointwise update of the symbol store (a C mutation of a symbol object). -/
def updateSyms (s : Nat → sym) (i : Nat) (v : sym) : Nat → sym :=
  fun j => if j = i then v else s j

/-- Creation of the Emission Context, from src/emitter.c emitterInit: the
struct is malloc'd (every field indeterminate, i.e. `none`), then the
assembly sink and architecture are installed and labelReturnTo and
labelBreakTo are assigned the defined undefined operand; labelContinueTo is
never assigned. -/
def emitterInit (arch : architecture) (syms : Nat → sym) : emitterCtx :=
  { arch := arch
    syms := syms
    labelReturnTo := some operand.undefined
    labelBreakTo := some operand.undefined
    labelContinueTo := none
    nextLabel := 0
    out := [] }

/-- Lowering of a return statement, from src/emitter.c emitterReturn: a
non-void return first evaluates its value with the place-into-return-slot
request, then either way an unconditional jump to the current return-to
target is emitted. -/
def emitterReturn (ctx : emitterCtx) (node : ast) : emitterCtx :=
  let ctx1 :=
    match node.r with
    | some v => (emitterValue ctx v request.requestReturn).2
    | none => ctx
  asmJump ctx1 ctx1.labelReturnTo

mutual

/-- Statement dispatch, from src/emitter.c emitterLine: a comment marker is
emitted, then the node is dispatched on its tag; break and continue emit an
unconditional jump to the current break-to / continue-to target; an unknown
tag is the fatal internal-consistency failure. -/
def emitterLine (ctx : emitterCtx) (node : ast) : Except emitError emitterCtx :=
  let ctx1 := asmComment ctx
  if node.tag = astTag.astBranch then
    emitterBranch ctx1 node
  else if node.tag = astTag.astLoop then
    emitterLoop ctx1 node
  else if node.tag = astTag.astIter then
    emitterIter ctx1 node
  else if node.tag = astTag.astCode then
    emitterCode ctx1 node
  else if node.tag = astTag.astReturn then
    Except.ok (emitterReturn ctx1 node)
  else if node.tag = astTag.astBreak then
    Except.ok (asmJump ctx1 ctx1.labelBreakTo)
  else if node.tag = astTag.astContinue then
    Except.ok (asmJump ctx1 ctx1.labelContinueTo)
  else if node.tag = astTag.astDecl then
    Except.ok (emitterDecl ctx1 node)
  else if astIsValueTag node.tag then
    Except.ok (emitterValue ctx1 node request.requestVoid).2
  else if node.tag = astTag.astEmpty then
    Except.ok ctx1
  else
    Except.error (emitError.unhandled "emitterLine" node.tag)
termination_by 3 * sizeOf node + 2
decreasing_by
  all_goals simp_wf
  all_goals try omega
  all_goals (rcases node with ⟨t0, ch0, l0, r0, s0⟩; simp_all [ast.l, ast.r, ast.children]; omega)

/-- Code-block lowering, from src/emitter.c emitterCode: enter a lexical
emission scope, lower each child statement in order, leave the scope. -/
def emitterCode (ctx : emitterCtx) (node : ast) : Except emitError emitterCtx :=
  bindE (emitterLineList (asmEnter ctx) node.children) fun c =>
    Except.ok (asmLeave c)
termination_by 3 * sizeOf node + 1
decreasing_by
  all_goals simp_wf
  all_goals try omega
  all_goals (rcases node with ⟨t0, ch0, l0, r0, s0⟩; simp_all [ast.l, ast.r, ast.children]; omega)

/-- The statement loop of emitterCode (firstChild/nextSibling iteration). -/
def emitterLineList (ctx : emitterCtx) (l : List ast) : Except emitError emitterCtx :=
  match l with
  | [] => Except.ok ctx
  | c :: rest => bindE (emitterLine ctx c) fun ctx1 => emitterLineList ctx1 rest
termination_by 3 * sizeOf l
decreasing_by
  all_goals simp_wf
  all_goals try simp_all
  all_goals omega

/-- Branch (if/else) lowering, from src/emitter.c emitterBranch: create the
else and end-of-if labels, evaluate the condition into the flags, emit a
conditional jump to the else label, lower the then block (l); with an else
block (r): comment, jump to the end label, else label, else block, end label;
without: the else label alone. -/
def emitterBranch (ctx : emitterCtx) (node : ast) : Except emitError emitterCtx :=
  let q1 := asmCreateLabel ctx labelKind.labelElse
  let q2 := asmCreateLabel q1.2 labelKind.labelEndIf
  match node.children.head? with
  | none => Except.error (emitError.nullDeref "emitterBranch")
  | some cond =>
    let r1 := emitterValue q2.2 cond request.requestFlags
    let ctxA := asmBranch r1.2 r1.1 q1.1
    match hl : node.l with
    | none => Except.error (emitError.nullDeref "emitterBranch")
    | some thenB =>
      bindE (emitterCode ctxA thenB) fun cb =>
        match hr : node.r with
        | some elseB =>
          let cbA := asmLabel (asmJump (asmComment cb) (some q2.1)) (some q1.1)
          bindE (emitterCode cbA elseB) fun cb2 =>
            Except.ok (asmLabel cb2 (some q2.1))
        | none => Except.ok (asmLabel cb (some q1.1))
termination_by 3 * sizeOf node + 1
decreasing_by
  all_goals simp_wf
  all_goals try omega
  all_goals (rcases node with ⟨t0, ch0, l0, r0, s0⟩; simp_all [ast.l, ast.r, ast.children]; omega)

/-- Loop (while / do-while) lowering, from src/emitter.c emitterLoop: create
the loop-top label, save the break-to and continue-to targets, install a
fresh exit label as break-to and a fresh continue label as continue-to;
whether the first child slot l holds a block-tagged node decides do-while
(condition in r, checked only at the bottom) versus while (condition in l,
additionally checked once before the loop top); emit [while only: condition
check with conditional exit], loop-top label, body, comment, continue label,
condition check with conditional exit, jump to loop top, exit label; finally
restore the saved break-to and continue-to targets. -/
def emitterLoop (ctx : emitterCtx) (node : ast) : Except emitError emitterCtx :=
  let q1 := asmCreateLabel ctx labelKind.labelWhile
  let oldBreakTo := q1.2.labelBreakTo
  let oldContinueTo := q1.2.labelContinueTo
  let q2 := asmCreateLabel q1.2 labelKind.labelBreak
  let q3 := asmCreateLabel q2.2 labelKind.labelContinue
  let ctxA := { q3.2 with labelBreakTo := some q2.1, labelContinueTo := some q3.1 }
  match hl : node.l with
  | none => Except.error (emitError.nullDeref "emitterLoop")
  | some lc =>
    if lc.tag = astTag.astCode then
      let ctxB := asmLabel ctxA (some q1.1)
      bindE (emitterCode ctxB lc) fun cb =>
        let cb1 := asmLabel (asmComment cb) cb.labelContinueTo
        match node.r with
        | none => Except.error (emitError.nullDeref "emitterLoop")
        | some cond =>
          let r2 := emitterValue cb1 cond request.requestFlags
          let cb3 := asmLabel (asmJump (asmBranch r2.2 r2.1 q2.1) (some q1.1)) (some q2.1)
          Except.ok { cb3 with labelBreakTo := oldBreakTo, labelContinueTo := oldContinueTo }
    else
      let r1 := emitterValue ctxA lc request.requestFlags
      let ctxB := asmLabel (asmBranch r1.2 r1.1 q2.1) (some q1.1)
      match hr : node.r with
      | none => Except.error (emitError.nullDeref "emitterLoop")
      | some code =>
        bindE (emitterCode ctxB code) fun cb =>
          let cb1 := asmLabel (asmComment cb) cb.labelContinueTo
          let r2 := emitterValue cb1 lc request.requestFlags
          let cb3 := asmLabel (asmJump (asmBranch r2.2 r2.1 q2.1) (some q1.1)) (some q2.1)
          Except.ok { cb3 with labelBreakTo := oldBreakTo, labelContinueTo := oldContinueTo }
termination_by 3 * sizeOf node + 1
decreasing_by
  all_goals simp_wf
  all_goals try omega
  all_goals (rcases node with ⟨t0, ch0, l0, r0, s0⟩; simp_all [ast.l, ast.r, ast.children]; omega)

/-- Counted iteration (for) lowering, from src/emitter.c emitterIter: the
first three children are init, condition and step; create the loop-top label,
save break-to/continue-to and install fresh exit and continue labels; lower
the init (declaration, expression with discarded value, empty no-op, else the
fatal unhandled-tag failure); emit the loop-top label; when the condition is
non-empty evaluate it into the flags and emit a conditional jump to the exit;
lower the body (l); emit comment and continue label; when the step is
non-empty evaluate it with a discard request; emit the jump to the loop top
and the exit label; restore the saved targets. -/
def emitterIter (ctx : emitterCtx) (node : ast) : Except emitError emitterCtx :=
  match node.children with
  | init :: cond :: iter :: _ =>
    let q1 := asmCreateLabel ctx labelKind.labelFor
    let oldBreakTo := q1.2.labelBreakTo
    let oldContinueTo := q1.2.labelContinueTo
    let q2 := asmCreateLabel q1.2 labelKind.labelBreak
    let q3 := asmCreateLabel q2.2 labelKind.labelContinue
    let ctxA := { q3.2 with labelBreakTo := some q2.1, labelContinueTo := some q3.1 }
    bindE
      (if init.tag = astTag.astDecl then
        Except.ok (asmComment (emitterDecl ctxA init))
      else if astIsValueTag init.tag then
        Except.ok (asmComment (emitterValue ctxA init request.requestVoid).2)
      else if init.tag = astTag.astEmpty then
        Except.ok ctxA
      else
        Except.error (emitError.unhandled "emitterIter" init.tag))
      (fun ctxB =>
        let ctxC := asmLabel ctxB (some q1.1)
        let ctxD :=
          if cond.tag = astTag.astEmpty then ctxC
          else
            let r1 := emitterValue ctxC cond request.requestFlags
            asmBranch r1.2 r1.1 q2.1
        match hl : node.l with
        | none => Except.error (emitError.nullDeref "emitterIter")
        | some body =>
          bindE (emitterCode ctxD body) fun cb =>
            let cb1 := asmLabel (asmComment cb) cb.labelContinueTo
            let cb2 :=
              if iter.tag = astTag.astEmpty then cb1
              else asmComment (emitterValue cb1 iter request.requestVoid).2
            let cb3 := asmLabel (asmJump cb2 (some q1.1)) (some q2.1)
            Except.ok { cb3 with labelBreakTo := oldBreakTo, labelContinueTo := oldContinueTo })
  | _ => Except.error (emitError.nullDeref "emitterIter")
termination_by 3 * sizeOf node + 1
decreasing_by
  all_goals simp_wf
  all_goals try omega
  all_goals (rcases node with ⟨t0, ch0, l0, r0, s0⟩; simp_all [ast.l, ast.r, ast.children]; omega)

end

/-- Function-implementation lowering, from src/emitter.c emitterFnImpl: when
the associated symbol's label is unset (0) assign one via the architecture's
name-mangling rule; allocate the stack frame; create the shared return label
and install it as the return-to target (no save/restore: functions do not
nest); emit a comment and the prologue carrying the symbol's label and the
frame size; lower the body (r); emit the single epilogue at the return label. -/
def emitterFnImpl (ctx : emitterCtx) (node : ast) : Except emitError emitterCtx :=
  match node.symbol with
  | none => Except.error (emitError.nullDeref "emitterFnImpl")
  | some i =>
    let s0 := ctx.syms i
    let s1 := if s0.label = 0 then s0.withLabel (ctx.arch.symbolMangler s0) else s0
    let p := emitterFnAllocateStack ctx.arch s1
    let ctx1 := { ctx with syms := updateSyms ctx.syms i p.1 }
    let q := asmCreateLabel ctx1 labelKind.labelReturn
    let ctx2 := { q.2 with labelReturnTo := some q.1 }
    let ctx3 := asmFnPrologue (asmComment ctx2) p.1.label p.2
    match node.r with
    | none => Except.error (emitError.nullDeref "emitterFnImpl")
    | some body =>
      bindE (emitterCode ctx3 body) fun cb => Except.ok (asmFnEpilogue cb q.1)

mutual

/-- Module lowering, from src/emitter.c emitterModule: iterate the top-level
children in order. -/
def emitterModule (ctx : emitterCtx) (node : ast) : Except emitError emitterCtx :=
  emitterModuleList ctx node.children
termination_by sizeOf node
decreasing_by
  all_goals simp_wf
  all_goals (rcases node with ⟨t0, ch0, l0, r0, s0⟩; simp_all [ast.r, ast.children]; omega)

/-- The top-level iteration of emitterModule: a module-inclusion (using) node
recurses into its referenced module (r) when present; a
function-implementation node goes to emitterFnImpl; a declaration node to the
declaration collaborator; an empty node is a no-op; any other tag is the
fatal internal-consistency failure, which aborts the iteration so no further
top-level node is lowered. -/
def emitterModuleList (ctx : emitterCtx) (l : List ast) : Except emitError emitterCtx :=
  match l with
  | [] => Except.ok ctx
  | c :: rest =>
    bindE
      (if c.tag = astTag.astUsing then
        match hm : c.r with
        | some m => emitterModule ctx m
        | none => Except.ok ctx
      else if c.tag = astTag.astFnImpl then
        emitterFnImpl ctx c
      else if c.tag = astTag.astDecl then
        Except.ok (emitterDecl ctx c)
      else if c.tag = astTag.astEmpty then
        Except.ok ctx
      else
        Except.error (emitError.unhandled "emitterModule" c.tag))
      (fun ctx1 => emitterModuleList ctx1 rest)
termination_by sizeOf l
decreasing_by
  all_goals simp_wf
  all_goals try omega
  all_goals (rcases c with ⟨t0, ch0, l0, r0, s0⟩; simp_all [ast.r]; omega)

end

/-- The whole-module entry point, from src/emitter.c emitter: create the
Emission Context, emit the file prologue, lower the module, emit the file
epilogue. -/
def emitter (tree : ast) (arch : architecture) (syms : Nat → sym) :
    Except emitError emitterCtx :=
  bindE (emitterModule (asmFilePrologue (emitterInit arch syms)) tree) fun c =>
    Except.ok (asmFileEpilogue c)

/-- Recognises a function-epilogue instruction. -/
def isEpilogue : instr → Bool
  | .fnEpilogue _ => true
  | _ => false

/-- Number of function epilogues in an emitted instruction stream. -/
def epiCount (l : List instr) : Nat :=
  l.countP isEpilogue

/-- What one statement-lowering step preserves of the Emission Context: the
architecture, the symbol store and all three jump-target fields are left as
they were, and the instruction stream is only appended to, with no epilogue
among the appended instructions. -/
def pres (a b : emitterCtx) : Prop :=
  b.arch = a.arch ∧ b.syms = a.syms ∧ b.labelReturnTo = a.labelReturnTo ∧
    b.labelBreakTo = a.labelBreakTo ∧ b.labelContinueTo = a.labelContinueTo ∧
    ∃ δ, b.out = a.out ++ δ ∧ epiCount δ = 0

/-- The part of `pres` that also holds of the intermediate states inside a
loop or iteration lowering, where fresh break-to / continue-to targets are
temporarily installed: architecture, symbol store and return-to target are
unchanged and the instruction stream is appended to without epilogues. -/
def presW (a b : emitterCtx) : Prop :=
  b.arch = a.arch ∧ b.syms = a.syms ∧ b.labelReturnTo = a.labelReturnTo ∧
    ∃ δ, b.out = a.out ++ δ ∧ epiCount δ = 0

/-- The first parameter offset: two words for the return address and the
saved base pointer, plus one word when the return value is returned through a
temporary. -/
def paramStart (arch : architecture) (fn : sym) : Int :=
  2 * (arch.wordsize : Int) +
    (if arch.wordsize < typeGetSize arch (typeGetReturn fn.dt) then (arch.wordsize : Int) else 0)

/-- Sum of the storage sizes of a list of symbols' types. -/
def sizeSum (arch : architecture) : List sym → Int
  | [] => 0
  | s :: rest => (typeGetSize arch s.dt : Int) + sizeSum arch rest

/-- List form of `walkedIdsAll`: checks a Boolean property of every
identifier-tagged symbol the auto-variable offset walk visits in a child
list (recursing into scope-tagged children exactly as the walk does). -/
def walkedIdsAllList (P : sym → Bool) (l : List sym) : Bool :=
  match l with
  | [] => true
  | s :: rest =>
    (if s.tag = symTag.symScope then walkedIdsAllList P s.children
     else if s.tag = symTag.symId then P s
     else true) && walkedIdsAllList P rest
termination_by sizeOf l
decreasing_by
  all_goals simp_wf
  all_goals try omega
  all_goals (rcases s with ⟨t0, d0, c0, o0, lb0⟩; simp_all [sym.children]; omega)

/-- Checks a Boolean property of every identifier-tagged symbol the
auto-variable offset walk visits below a root symbol. -/
def walkedIdsAll (P : sym → Bool) (s : sym) : Bool :=
  walkedIdsAllList P s.children

/-- List form of `walkedIdsSize`: total storage size of the identifier-tagged
symbols the auto-variable offset walk visits in a child list. -/
def walkedIdsSizeList (arch : architecture) (l : List sym) : Int :=
  match l with
  | [] => 0
  | s :: rest =>
    (if s.tag = symTag.symScope then walkedIdsSizeList arch s.children
     else if s.tag = symTag.symId then (typeGetSize arch s.dt : Int)
     else 0) + walkedIdsSizeList arch rest
termination_by sizeOf l
decreasing_by
  all_goals simp_wf
  all_goals try omega
  all_goals (rcases s with ⟨t0, d0, c0, o0, lb0⟩; simp_all [sym.children]; omega)

/-- Total storage size of the identifier-tagged symbols the auto-variable
offset walk visits below a root symbol. -/
def walkedIdsSize (arch : architecture) (s : sym) : Int :=
  walkedIdsSizeList arch s.children

/-- Default symbol used with `List.getD`. -/
def d0 : sym :=
  sym.mk symTag.symScope (type.basic 0) [] 0 0

/-- A concrete architecture: word size 8, a mangler assigning label 1. -/
def arch0 : architecture :=
  { wordsize := 8, symbolMangler := fun _ => 1 }

/-- A concrete symbol store: every index holds a childless function symbol
of scalar return type, with label unset. -/
def syms0 : Nat → sym :=
  fun _ => sym.mk symTag.symFn (type.fn (type.basic 4) 8) [] 0 0

/-- A concrete initial Emission Context. -/
def ctx0 : emitterCtx :=
  emitterInit arch0 syms0

/-- Concrete AST: an empty statement. -/
def emptyW : ast := ast.mk astTag.astEmpty [] none none none

/-- Concrete AST: a literal expression (condition or value). -/
def litW : ast := ast.mk astTag.astLiteral [] none none none

/-- Concrete AST: a break statement. -/
def breakW : ast := ast.mk astTag.astBreak [] none none none

/-- Concrete AST: a continue statement. -/
def continueW : ast := ast.mk astTag.astContinue [] none none none

/-- Concrete AST: an empty code block. -/
def blockW : ast := ast.mk astTag.astCode [] none none none

/-- Concrete AST: a do-while loop (block in the first child slot l,
condition in r). -/
def dwLoopW : ast := ast.mk astTag.astLoop [] (some blockW) (some litW) none

/-- Concrete AST: a then-block holding one empty statement. -/
def thenBlkW : ast := ast.mk astTag.astCode [emptyW] none none none

/-- Concrete AST: if (cond) { A } else { B } with A = `thenBlkW`,
B = `blockW`. -/
def ifElseW : ast := ast.mk astTag.astBranch [litW] (some thenBlkW) (some blockW) none

/-- Concrete AST: a block holding a single break statement. -/
def brkBlkW : ast := ast.mk astTag.astCode [breakW] none none none

/-- Concrete AST: if (done) break; (no else). -/
def ifBreakW : ast := ast.mk astTag.astBranch [litW] (some brkBlkW) none none

/-- Concrete AST: the body { if (done) break; }. -/
def iterBodyW : ast := ast.mk astTag.astCode [ifBreakW] none none none

/-- Concrete AST: for (;;) { if (done) break; } — three empty slots and the
body block in l. -/
def iterW : ast := ast.mk astTag.astIter [emptyW, emptyW, emptyW] (some iterBodyW) none none

/-- Concrete AST: inner loop while (cond) { break; }. -/
def innerLoopW : ast := ast.mk astTag.astLoop [] (some litW) (some brkBlkW) none

/-- Concrete AST: outer loop body { while (cond) { break; } break; }. -/
def outerBodyW : ast := ast.mk astTag.astCode [innerLoopW, breakW] none none none

/-- Concrete AST: outer loop while (cond) { while (cond) { break; } break; }. -/
def outerLoopW : ast := ast.mk astTag.astLoop [] (some litW) (some outerBodyW) none

/-- Concrete AST: a value-less return. -/
def retVoidW : ast := ast.mk astTag.astReturn [] none none none

/-- Concrete AST: return lit;. -/
def retValW : ast := ast.mk astTag.astReturn [] none (some litW) none

/-- Concrete AST: a function body with two return statements. -/
def fnBodyW : ast := ast.mk astTag.astCode [retValW, retVoidW] none none none

/-- Concrete AST: a function implementation whose symbol is store index 0 and
whose body is `fnBodyW`. -/
def fnW : ast := ast.mk astTag.astFnImpl [] none (some fnBodyW) (some 0)

/-- Concrete AST: a module-tagged node, which is unhandled at statement
position. -/
def badLineW : ast := ast.mk astTag.astModule [] none none none

/-- Concrete symbol: a 4-byte parameter. -/
def paW : sym := sym.mk symTag.symParam (type.basic 4) [] 0 0

/-- Concrete symbol: scenario A function — two 4-byte parameters, 8-byte
scalar return type, label already set. -/
def fnA : sym := sym.mk symTag.symFn (type.fn (type.basic 8) 8) [paW, paW] 0 1

/-- Concrete symbol: a 4-byte local variable (int). -/
def xW : sym := sym.mk symTag.symId (type.basic 4) [] 0 0

/-- Concrete symbol: scenario B inner scope { int y; }. -/
def scope2W : sym := sym.mk symTag.symScope (type.basic 0) [xW] 0 0

/-- Concrete symbol: scenario B body scope { int x; { int y; } }. -/
def scope1W : sym := sym.mk symTag.symScope (type.basic 0) [xW, scope2W] 0 0

/-- Concrete symbol: scenario B function with body { int x; { int y; } }. -/
def fnB : sym := sym.mk symTag.symFn (type.basic 4) [scope1W] 0 1

/-- The Emission Context state inside emitterFnImpl just before the body is
lowered: the symbol (store index i) has been labelled if its label was unset
and had its frame allocated, the fresh return label is installed as the
return-to target, and the comment and prologue have been emitted. -/
def fnBodyCtx (ctx : emitterCtx) (i : Nat) : emitterCtx :=
  let s0 := ctx.syms i
  let s1 := if s0.label = 0 then s0.withLabel (ctx.arch.symbolMangler s0) else s0
  let p := emitterFnAllocateStack ctx.arch s1
  { ctx with
    syms := updateSyms ctx.syms i p.1
    labelReturnTo := some (operand.labelOp labelKind.labelReturn ctx.nextLabel)
    nextLabel := ctx.nextLabel + 1
    out := ctx.out ++ [instr.comment, instr.fnPrologue p.1.label p.2] }

/-- The symbol at store index 0 after `fnW` has been lowered once: label 1
assigned by the mangler. -/
def symAfter : sym := sym.mk symTag.symFn (type.fn (type.basic 4) 8) [] 0 1

/-- Instructions of `fnW`'s lowered body (prologue, two returns jumping to
the shared return label, teardown markers), before the epilogue. -/
def cbOutW : List instr :=
  [instr.comment, instr.fnPrologue 1 0, instr.enter, instr.comment,
   instr.eval litW request.requestReturn,
   instr.jump (some (operand.labelOp labelKind.labelReturn 0)),
   instr.comment,
   instr.jump (some (operand.labelOp labelKind.labelReturn 0)),
   instr.leave]

/-- The Emission Context after lowering `fnW`'s body from `fnBodyCtx ctx0 0`. -/
def cbFnW : emitterCtx :=
  { ctx0 with
    syms := updateSyms syms0 0 symAfter
    labelReturnTo := some (operand.labelOp labelKind.labelReturn 0)
    nextLabel := 1
    out := cbOutW }

/-- The Emission Context after lowering `fnW` once from `ctx0`: exactly one
epilogue, at the shared return label. -/
def ctxAfterFn : emitterCtx :=
  { ctx0 with
    syms := updateSyms syms0 0 symAfter
    labelReturnTo := some (operand.labelOp labelKind.labelReturn 0)
    nextLabel := 1
    out := cbOutW ++ [instr.fnEpilogue (operand.labelOp labelKind.labelReturn 0)] }

/-- The Emission Context after lowering `fnW` a second time: the label is not
reassigned (still 1). -/
def ctxAfterFn2 : emitterCtx :=
  { ctx0 with
    syms := updateSyms (updateSyms syms0 0 symAfter) 0 symAfter
    labelReturnTo := some (operand.labelOp labelKind.labelReturn 1)
    nextLabel := 2
    out := cbOutW ++ [instr.fnEpilogue (operand.labelOp labelKind.labelReturn 0),
      instr.comment, instr.fnPrologue 1 0, instr.enter, instr.comment,
      instr.eval litW request.requestReturn,
      instr.jump (some (operand.labelOp labelKind.labelReturn 1)),
      instr.comment,
      instr.jump (some (operand.labelOp labelKind.labelReturn 1)),
      instr.leave,
      instr.fnEpilogue (operand.labelOp labelKind.labelReturn 1)] }

/-- The Emission Context state inside emitterBranch right after the condition
has been evaluated into the flags and the conditional jump to the else label
has been emitted (the two labels have been created). -/
def branchMid (ctx : emitterCtx) (cond : ast) : emitterCtx :=
  { ctx with
    nextLabel := ctx.nextLabel + 2
    out := ctx.out ++ [instr.eval cond request.requestFlags,
      instr.branch (operand.exprResult request.requestFlags)
        (operand.labelOp labelKind.labelElse ctx.nextLabel)] }

/-- The Emission Context state inside emitterLoop for a post-test (do-while)
loop just before the body is lowered: three labels created, fresh break and
continue targets installed, loop-top label emitted (no pre-test check). -/
def loopPostMid (ctx : emitterCtx) : emitterCtx :=
  { ctx with
    nextLabel := ctx.nextLabel + 3
    labelBreakTo := some (operand.labelOp labelKind.labelBreak (ctx.nextLabel + 1))
    labelContinueTo := some (operand.labelOp labelKind.labelContinue (ctx.nextLabel + 2))
    out := ctx.out ++ [instr.labelDef (some (operand.labelOp labelKind.labelWhile ctx.nextLabel))] }

/-- The Emission Context state inside emitterLoop for a pre-test (while)
loop just before the body is lowered: as in the post-test case but with the
condition check and conditional exit emitted before the loop-top label. -/
def loopPreMid (ctx : emitterCtx) (cond : ast) : emitterCtx :=
  { ctx with
    nextLabel := ctx.nextLabel + 3
    labelBreakTo := some (operand.labelOp labelKind.labelBreak (ctx.nextLabel + 1))
    labelContinueTo := some (operand.labelOp labelKind.labelContinue (ctx.nextLabel + 2))
    out := ctx.out ++ [instr.eval cond request.requestFlags,
      instr.branch (operand.exprResult request.requestFlags)
        (operand.labelOp labelKind.labelBreak (ctx.nextLabel + 1)),
      instr.labelDef (some (operand.labelOp labelKind.labelWhile ctx.nextLabel))] }

/-- The instructions emitterLoop emits after the body, identical for both
loop kinds: comment, continue label, condition check with conditional exit,
jump back to the loop top, exit label. -/
def loopTail (ctx : emitterCtx) (cond : ast) : List instr :=
  [instr.comment,
   instr.labelDef (some (operand.labelOp labelKind.labelContinue (ctx.nextLabel + 2))),
   instr.eval cond request.requestFlags,
   instr.branch (operand.exprResult request.requestFlags)
     (operand.labelOp labelKind.labelBreak (ctx.nextLabel + 1)),
   instr.jump (some (operand.labelOp labelKind.labelWhile ctx.nextLabel)),
   instr.labelDef (some (operand.labelOp labelKind.labelBreak (ctx.nextLabel + 1)))]

/-- The Emission Context state inside emitterIter just before the body is
lowered: labels created and fresh break/continue targets installed, the init
lowered according to its kind (declaration, discarded expression, or empty
no-op), the loop-top label emitted, and the condition check emitted only when
the condition is non-empty. -/
def iterMid (ctx : emitterCtx) (init cond : ast) : emitterCtx :=
  { ctx with
    nextLabel := ctx.nextLabel + 3
    labelBreakTo := some (operand.labelOp labelKind.labelBreak (ctx.nextLabel + 1))
    labelContinueTo := some (operand.labelOp labelKind.labelContinue (ctx.nextLabel + 2))
    out := ctx.out
      ++ (if init.tag = astTag.astDecl then [instr.declEmit init, instr.comment]
          else if astIsValueTag init.tag then [instr.eval init request.requestVoid, instr.comment]
          else [])
      ++ [instr.labelDef (some (operand.labelOp labelKind.labelFor ctx.nextLabel))]
      ++ (if cond.tag = astTag.astEmpty then []
          else [instr.eval cond request.requestFlags,
            instr.branch (operand.exprResult request.requestFlags)
              (operand.labelOp labelKind.labelBreak (ctx.nextLabel + 1))]) }

/-- The instructions emitterIter emits after the body: comment, continue
label, the step expression evaluated with a discard request only when
non-empty, jump back to the loop top, exit label. -/
def iterTail (ctx : emitterCtx) (iter : ast) : List instr :=
  [instr.comment,
   instr.labelDef (some (operand.labelOp labelKind.labelContinue (ctx.nextLabel + 2)))]
  ++ (if iter.tag = astTag.astEmpty then []
      else [instr.eval iter request.requestVoid, instr.comment])
  ++ [instr.jump (some (operand.labelOp labelKind.labelFor ctx.nextLabel)),
      instr.labelDef (some (operand.labelOp labelKind.labelBreak (ctx.nextLabel + 1)))]

/-- The Emission Context after lowering `outerLoopW` from `ctx0`: both
nested loops emitted with the inner break jumping to the inner exit label
(labelBreak 4) and the outer-level break jumping to the outer exit label
(labelBreak 1); the break-to and continue-to fields are restored. -/
def resNested : emitterCtx :=
  { ctx0 with
    nextLabel := 6
    out := [instr.comment,
      instr.eval litW request.requestFlags,
      instr.branch (operand.exprResult request.requestFlags) (operand.labelOp labelKind.labelBreak 1),
      instr.labelDef (some (operand.labelOp labelKind.labelWhile 0)),
      instr.enter,
      instr.comment,
      instr.eval litW request.requestFlags,
      instr.branch (operand.exprResult request.requestFlags) (operand.labelOp labelKind.labelBreak 4),
      instr.labelDef (some (operand.labelOp labelKind.labelWhile 3)),
      instr.enter,
      instr.comment,
      instr.jump (some (operand.labelOp labelKind.labelBreak 4)),
      instr.leave,
      instr.comment,
      instr.labelDef (some (operand.labelOp labelKind.labelContinue 5)),
      instr.eval litW request.requestFlags,
      instr.branch (operand.exprResult request.requestFlags) (operand.labelOp labelKind.labelBreak 4),
      instr.jump (some (operand.labelOp labelKind.labelWhile 3)),
      instr.labelDef (some (operand.labelOp labelKind.labelBreak 4)),
      instr.comment,
      instr.jump (some (operand.labelOp labelKind.labelBreak 1)),
      instr.leave,
      instr.comment,
      instr.labelDef (some (operand.labelOp labelKind.labelContinue 2)),
      instr.eval litW request.requestFlags,
      instr.branch (operand.exprResult request.requestFlags) (operand.labelOp labelKind.labelBreak 1),
      instr.jump (some (operand.labelOp labelKind.labelWhile 0)),
      instr.labelDef (some (operand.labelOp labelKind.labelBreak 1))] }

/-- The Emission Context after lowering `ifElseW`'s then-block from
`branchMid ctx0 litW`. -/
def branchThenW : emitterCtx :=
  { ctx0 with
    nextLabel := 2
    out := [instr.eval litW request.requestFlags,
      instr.branch (operand.exprResult request.requestFlags) (operand.labelOp labelKind.labelElse 0),
      instr.enter, instr.comment, instr.leave] }

/-- The Emission Context after additionally lowering `ifElseW`'s else-block
(after the jump to the end label and the else label). -/
def branchElseW : emitterCtx :=
  { ctx0 with
    nextLabel := 2
    out := [instr.eval litW request.requestFlags,
      instr.branch (operand.exprResult request.requestFlags) (operand.labelOp labelKind.labelElse 0),
      instr.enter, instr.comment, instr.leave,
      instr.comment,
      instr.jump (some (operand.labelOp labelKind.labelEndIf 1)),
      instr.labelDef (some (operand.labelOp labelKind.labelElse 0)),
      instr.enter, instr.leave] }

/-- The Emission Context after lowering `dwLoopW`'s (empty) body from
`loopPostMid ctx0`. -/
def loopPostCbW : emitterCtx :=
  { ctx0 with
    nextLabel := 3
    labelBreakTo := some (operand.labelOp labelKind.labelBreak 1)
    labelContinueTo := some (operand.labelOp labelKind.labelContinue 2)
    out := [instr.labelDef (some (operand.labelOp labelKind.labelWhile 0)),
      instr.enter, instr.leave] }

/-- The Emission Context after lowering `iterW`'s body (`{ if (done) break; }`)
from `iterMid ctx0 emptyW emptyW`: the break jumps to the iteration's exit
label (labelBreak 1). -/
def iterCbW : emitterCtx :=
  { ctx0 with
    nextLabel := 5
    labelBreakTo := some (operand.labelOp labelKind.labelBreak 1)
    labelContinueTo := some (operand.labelOp labelKind.labelContinue 2)
    out := [instr.labelDef (some (operand.labelOp labelKind.labelFor 0)),
      instr.enter, instr.comment,
      instr.eval litW request.requestFlags,
      instr.branch (operand.exprResult request.requestFlags) (operand.labelOp labelKind.labelElse 3),
      instr.enter, instr.comment,
      instr.jump (some (operand.labelOp labelKind.labelBreak 1)),
      instr.leave,
      instr.labelDef (some (operand.labelOp labelKind.labelElse 3)),
      instr.leave] }

@[simp] theorem ast_tag_mk (t c l r s) : (ast.mk t c l r s).tag = t := rfl

@[simp] theorem ast_children_mk (t c l r s) : (ast.mk t c l r s).children = c := rfl

@[simp] theorem ast_l_mk (t c l r s) : (ast.mk t c l r s).l = l := rfl

@[simp] theorem ast_r_mk (t c l r s) : (ast.mk t c l r s).r = r := rfl

@[simp] theorem ast_symbol_mk (t c l r s) : (ast.mk t c l r s).symbol = s := rfl

@[simp] theorem sym_tag_mk (t d c o lb) : (sym.mk t d c o lb).tag = t := rfl

@[simp] theorem sym_dt_mk (t d c o lb) : (sym.mk t d c o lb).dt = d := rfl

@[simp] theorem sym_children_mk (t d c o lb) : (sym.mk t d c o lb).children = c := rfl

@[simp] theorem sym_offset_mk (t d c o lb) : (sym.mk t d c o lb).offset = o := rfl

@[simp] theorem sym_label_mk (t d c o lb) : (sym.mk t d c o lb).label = lb := rfl

@[simp] theorem sym_withOffset_mk (t d c o lb o') :
    (sym.mk t d c o lb).withOffset o' = sym.mk t d c o' lb := rfl

@[simp] theorem sym_withLabel_mk (t d c o lb lb') :
    (sym.mk t d c o lb).withLabel lb' = sym.mk t d c o lb' := rfl

@[simp] theorem sym_withChildren_mk (t d c o lb c') :
    (sym.mk t d c o lb).withChildren c' = sym.mk t d c' o lb := rfl

@[simp] theorem bindE_ok (c : emitterCtx) (f) : bindE (Except.ok c) f = f c := rfl

@[simp] theorem bindE_error (e : emitError) (f) :
    bindE (Except.error e) f = Except.error e := rfl

@[simp] theorem epiCount_nil : epiCount [] = 0 := rfl

@[simp] theorem epiCount_append (l1 l2 : List instr) :
    epiCount (l1 ++ l2) = epiCount l1 + epiCount l2 :=
  List.countP_append _ _ _

@[simp] theorem epiCount_cons (i : instr) (l : List instr) :
    epiCount (i :: l) = epiCount l + (if isEpilogue i then 1 else 0) :=
  List.countP_cons _ _ _

theorem pres_refl (a : emitterCtx) : pres a a :=
  ⟨rfl, rfl, rfl, rfl, rfl, [], by simp, rfl⟩

theorem pres_trans {a b c : emitterCtx} (h1 : pres a b) (h2 : pres b c) : pres a c := by
  obtain ⟨e1, e2, e3, e4, e5, δ1, ho1, hc1⟩ := h1
  obtain ⟨f1, f2, f3, f4, f5, δ2, ho2, hc2⟩ := h2
  refine ⟨by rw [f1, e1], by rw [f2, e2], by rw [f3, e3], by rw [f4, e4], by rw [f5, e5],
    δ1 ++ δ2, ?_, ?_⟩
  · rw [ho2, ho1, List.append_assoc]
  · simp [hc1, hc2]

theorem pres_emit (a : emitterCtx) (i : instr) (h : isEpilogue i = false) :
    pres a { a with out := a.out ++ [i] } :=
  ⟨rfl, rfl, rfl, rfl, rfl, [i], rfl, by simp [h]⟩

theorem pres_asmComment (a : emitterCtx) : pres a (asmComment a) :=
  pres_emit a instr.comment rfl

theorem pres_asmEnter (a : emitterCtx) : pres a (asmEnter a) :=
  pres_emit a instr.enter rfl

theorem pres_asmLeave (a : emitterCtx) : pres a (asmLeave a) :=
  pres_emit a instr.leave rfl

theorem pres_asmJump (a : emitterCtx) (t) : pres a (asmJump a t) :=
  pres_emit a (instr.jump t) rfl

theorem pres_asmBranch (a : emitterCtx) (c t) : pres a (asmBranch a c t) :=
  pres_emit a (instr.branch c t) rfl

theorem pres_asmLabel (a : emitterCtx) (t) : pres a (asmLabel a t) :=
  pres_emit a (instr.labelDef t) rfl

theorem pres_emitterValue (a : emitterCtx) (n req) : pres a (emitterValue a n req).2 :=
  pres_emit a (instr.eval n req) rfl

theorem pres_emitterDecl (a : emitterCtx) (n) : pres a (emitterDecl a n) :=
  pres_emit a (instr.declEmit n) rfl

theorem pres_asmCreateLabel (a : emitterCtx) (k) : pres a (asmCreateLabel a k).2 :=
  ⟨rfl, rfl, rfl, rfl, rfl, [], by simp [asmCreateLabel], rfl⟩

theorem pres_emitterReturn (a : emitterCtx) (n : ast) : pres a (emitterReturn a n) := by
  unfold emitterReturn
  cases hr : n.r with
  | none => exact pres_asmJump a _
  | some v =>
    exact pres_trans (pres_emitterValue a v request.requestReturn) (pres_asmJump _ _)

theorem presW_of_pres {a b : emitterCtx} (h : pres a b) : presW a b :=
  ⟨h.1, h.2.1, h.2.2.1, h.2.2.2.2.2⟩

theorem presW_refl (a : emitterCtx) : presW a a :=
  presW_of_pres (pres_refl a)

theorem presW_trans {a b c : emitterCtx} (h1 : presW a b) (h2 : presW b c) : presW a c := by
  obtain ⟨e1, e2, e3, δ1, ho1, hc1⟩ := h1
  obtain ⟨f1, f2, f3, δ2, ho2, hc2⟩ := h2
  refine ⟨by rw [f1, e1], by rw [f2, e2], by rw [f3, e3], δ1 ++ δ2, ?_, ?_⟩
  · rw [ho2, ho1, List.append_assoc]
  · simp [hc1, hc2]

theorem pres_of_presW {a b : emitterCtx} (h : presW a b)
    (hb : b.labelBreakTo = a.labelBreakTo) (hc : b.labelContinueTo = a.labelContinueTo) :
    pres a b :=
  ⟨h.1, h.2.1, h.2.2.1, hb, hc, h.2.2.2⟩

theorem presW_emit {a b : emitterCtx} (h : presW a b) (i : instr)
    (hi : isEpilogue i = false) : presW a { b with out := b.out ++ [i] } := by
  obtain ⟨e1, e2, e3, δ, ho, hc⟩ := h
  exact ⟨e1, e2, e3, δ ++ [i], by simp [ho], by simp [hc, hi]⟩

theorem presW_comment {a b : emitterCtx} (h : presW a b) : presW a (asmComment b) :=
  presW_emit h instr.comment rfl

theorem presW_enter {a b : emitterCtx} (h : presW a b) : presW a (asmEnter b) :=
  presW_emit h instr.enter rfl

theorem presW_leave {a b : emitterCtx} (h : presW a b) : presW a (asmLeave b) :=
  presW_emit h instr.leave rfl

theorem presW_jump {a b : emitterCtx} (h : presW a b) (t) : presW a (asmJump b t) :=
  presW_emit h (instr.jump t) rfl

theorem presW_branch {a b : emitterCtx} (h : presW a b) (c t) : presW a (asmBranch b c t) :=
  presW_emit h (instr.branch c t) rfl

theorem presW_label {a b : emitterCtx} (h : presW a b) (t) : presW a (asmLabel b t) :=
  presW_emit h (instr.labelDef t) rfl

theorem presW_value {a b : emitterCtx} (h : presW a b) (n r) :
    presW a (emitterValue b n r).2 :=
  presW_emit h (instr.eval n r) rfl

theorem presW_decl {a b : emitterCtx} (h : presW a b) (n) : presW a (emitterDecl b n) :=
  presW_emit h (instr.declEmit n) rfl

theorem presW_createLabel {a b : emitterCtx} (h : presW a b) (k) :
    presW a (asmCreateLabel b k).2 := by
  obtain ⟨e1, e2, e3, δ, ho, hc⟩ := h
  exact ⟨e1, e2, e3, δ, ho, hc⟩

theorem presW_setBC {a b : emitterCtx} (h : presW a b) (x y : Option operand) :
    presW a { b with labelBreakTo := x, labelContinueTo := y } := by
  obtain ⟨e1, e2, e3, δ, ho, hc⟩ := h
  exact ⟨e1, e2, e3, δ, ho, hc⟩

theorem presW_ite {P : Prop} [Decidable P] {a b c : emitterCtx}
    (hb : presW a b) (hc : presW a c) : presW a (if P then b else c) := by
  split
  · exact hb
  · exact hc

theorem pres_comment {a b : emitterCtx} (h : pres a b) : pres a (asmComment b) :=
  pres_trans h (pres_asmComment b)

theorem pres_enter {a b : emitterCtx} (h : pres a b) : pres a (asmEnter b) :=
  pres_trans h (pres_asmEnter b)

theorem pres_leave {a b : emitterCtx} (h : pres a b) : pres a (asmLeave b) :=
  pres_trans h (pres_asmLeave b)

theorem pres_jump {a b : emitterCtx} (h : pres a b) (t) : pres a (asmJump b t) :=
  pres_trans h (pres_asmJump b t)

theorem pres_branchOp {a b : emitterCtx} (h : pres a b) (c t) : pres a (asmBranch b c t) :=
  pres_trans h (pres_asmBranch b c t)

theorem pres_label {a b : emitterCtx} (h : pres a b) (t) : pres a (asmLabel b t) :=
  pres_trans h (pres_asmLabel b t)

theorem pres_value {a b : emitterCtx} (h : pres a b) (n r) :
    pres a (emitterValue b n r).2 :=
  pres_trans h (pres_emitterValue b n r)

theorem pres_declOp {a b : emitterCtx} (h : pres a b) (n) : pres a (emitterDecl b n) :=
  pres_trans h (pres_emitterDecl b n)

theorem pres_createLabel {a b : emitterCtx} (h : pres a b) (k) :
    pres a (asmCreateLabel b k).2 :=
  pres_trans h (pres_asmCreateLabel b k)

theorem bindE_ok_inv {x : Except emitError emitterCtx} {f c'}
    (h : bindE x f = Except.ok c') :
    ∃ c1, x = Except.ok c1 ∧ f c1 = Except.ok c' := by
  cases x with
  | ok c1 => exact ⟨c1, rfl, h⟩
  | error e => simp [bindE] at h

/-- Statement lowering preserves the Emission Context's jump-target fields,
the architecture and the symbol store, and only appends to the instruction
stream, never emitting an epilogue. Proved jointly for all the statement
lowering functions by their functional induction principle. -/
theorem emitterLine_ok_pres :
    ∀ (ctx : emitterCtx) (node : ast) (c' : emitterCtx),
      emitterLine ctx node = Except.ok c' → pres ctx c' := by
  refine emitterLine.induct
    (fun ctx node => ∀ c', emitterLine ctx node = Except.ok c' → pres ctx c')
    (fun ctx node => ∀ c', emitterCode ctx node = Except.ok c' → pres ctx c')
    (fun ctx l => ∀ c', emitterLineList ctx l = Except.ok c' → pres ctx c')
    (fun ctx node => ∀ c', emitterIter ctx node = Except.ok c' → pres ctx c')
    (fun ctx node => ∀ c', emitterLoop ctx node = Except.ok c' → pres ctx c')
    (fun ctx node => ∀ c', emitterBranch ctx node = Except.ok c' → pres ctx c')
    ?_ ?_ ?_ ?_ ?_ ?_ ?_ ?_ ?_ ?_ ?_ ?_ ?_ ?_ ?_ ?_ ?_ ?_ ?_ ?_ ?_ ?_ ?_
  -- emitterLine: branch dispatch
  · intro ctx node ctx1 h1 ih c' h
    simp only [emitterLine] at h
    rw [if_pos h1] at h
    exact pres_trans (pres_asmComment ctx) (ih c' h)
  -- emitterLine: loop dispatch
  · intro ctx node ctx1 h1 h2 ih c' h
    simp only [emitterLine] at h
    rw [if_neg h1, if_pos h2] at h
    exact pres_trans (pres_asmComment ctx) (ih c' h)
  -- emitterLine: iter dispatch
  · intro ctx node ctx1 h1 h2 h3 ih c' h
    simp only [emitterLine] at h
    rw [if_neg h1, if_neg h2, if_pos h3] at h
    exact pres_trans (pres_asmComment ctx) (ih c' h)
  -- emitterLine: code dispatch
  · intro ctx node ctx1 h1 h2 h3 h4 ih c' h
    simp only [emitterLine] at h
    rw [if_neg h1, if_neg h2, if_neg h3, if_pos h4] at h
    exact pres_trans (pres_asmComment ctx) (ih c' h)
  -- emitterLine: return
  · intro ctx node h1 h2 h3 h4 h5 c' h
    simp only [emitterLine] at h
    rw [if_neg h1, if_neg h2, if_neg h3, if_neg h4, if_pos h5] at h
    injection h with h
    subst h
    exact pres_trans (pres_asmComment ctx) (pres_emitterReturn _ node)
  -- emitterLine: break
  · intro ctx node h1 h2 h3 h4 h5 h6 c' h
    simp only [emitterLine] at h
    rw [if_neg h1, if_neg h2, if_neg h3, if_neg h4, if_neg h5, if_pos h6] at h
    injection h with h
    subst h
    exact pres_jump (pres_asmComment ctx) _
  -- emitterLine: continue
  · intro ctx node h1 h2 h3 h4 h5 h6 h7 c' h
    simp only [emitterLine] at h
    rw [if_neg h1, if_neg h2, if_neg h3, if_neg h4, if_neg h5, if_neg h6, if_pos h7] at h
    injection h with h
    subst h
    exact pres_jump (pres_asmComment ctx) _
  -- emitterLine: decl
  · intro ctx node h1 h2 h3 h4 h5 h6 h7 h8 c' h
    simp only [emitterLine] at h
    rw [if_neg h1, if_neg h2, if_neg h3, if_neg h4, if_neg h5, if_neg h6, if_neg h7,
      if_pos h8] at h
    injection h with h
    subst h
    exact pres_declOp (pres_asmComment ctx) _
  -- emitterLine: bare value expression
  · intro ctx node h1 h2 h3 h4 h5 h6 h7 h8 h9 c' h
    simp only [emitterLine] at h
    rw [if_neg h1, if_neg h2, if_neg h3, if_neg h4, if_neg h5, if_neg h6, if_neg h7,
      if_neg h8, if_pos h9] at h
    injection h with h
    subst h
    exact pres_value (pres_asmComment ctx) _ _
  -- emitterLine: empty
  · intro ctx node h1 h2 h3 h4 h5 h6 h7 h8 h9 h10 c' h
    simp only [emitterLine] at h
    rw [if_neg h1, if_neg h2, if_neg h3, if_neg h4, if_neg h5, if_neg h6, if_neg h7,
      if_neg h8, if_neg h9, if_pos h10] at h
    injection h with h
    subst h
    exact pres_asmComment ctx
  -- emitterLine: unhandled tag
  · intro ctx node h1 h2 h3 h4 h5 h6 h7 h8 h9 h10 c' h
    simp only [emitterLine] at h
    rw [if_neg h1, if_neg h2, if_neg h3, if_neg h4, if_neg h5, if_neg h6, if_neg h7,
      if_neg h8, if_neg h9, if_neg h10] at h
    exact absurd h (by simp)
  -- emitterCode
  · intro ctx node ih c' h
    simp only [emitterCode] at h
    obtain ⟨c1, hc1, h2⟩ := bindE_ok_inv h
    simp only [Except.ok.injEq] at h2
    subst h2
    exact pres_leave (pres_trans (pres_asmEnter ctx) (ih c1 hc1))
  -- emitterLineList: nil
  · intro ctx c' h
    simp only [emitterLineList] at h
    injection h with h
    subst h
    exact pres_refl ctx
  -- emitterLineList: cons
  · intro ctx c rest ih1 ihRest c' h
    simp only [emitterLineList] at h
    obtain ⟨c1, h1, h2⟩ := bindE_ok_inv h
    exact pres_trans (ih1 c1 h1) (ihRest c1 c' h2)
  -- emitterIter: main shape
  · intro ctx node init cond iter tl hch q1 q2 ih c' h
    rw [emitterIter.eq_def] at h
    split at h
    · rename_i init' cond' iter' tl' heq
      rw [hch] at heq
      injection heq with e1 heq
      injection heq with e2 heq
      injection heq with e3 heq
      subst e1
      subst e2
      subst e3
      obtain ⟨cB, hinit, h2⟩ := bindE_ok_inv h
      try dsimp only [] at h2
      split at h2
      · exact absurd h2 (by simp)
      · rename_i body heq2
        obtain ⟨cb, hcb, h3⟩ := bindE_ok_inv h2
        have hpres := ih cB body heq2 cb hcb
        try dsimp only [] at h3
        injection h3 with h3
        subst h3
        have w0 : presW ctx cB := by
          split at hinit
          · injection hinit with he
            subst he
            exact presW_comment (presW_decl (presW_setBC
              (presW_createLabel (presW_createLabel (presW_createLabel (presW_refl ctx) _) _) _)
              _ _) _)
          · split at hinit
            · injection hinit with he
              subst he
              exact presW_comment (presW_value (presW_setBC
                (presW_createLabel (presW_createLabel (presW_createLabel (presW_refl ctx) _) _) _)
                _ _) _ _)
            · split at hinit
              · injection hinit with he
                subst he
                exact presW_setBC
                  (presW_createLabel (presW_createLabel (presW_createLabel (presW_refl ctx) _) _) _)
                  _ _
              · exact absurd hinit (by simp)
        have w1 : presW ctx cb :=
          presW_trans
            (presW_ite (presW_label w0 _) (presW_branch (presW_value (presW_label w0 _) _ _) _ _))
            (presW_of_pres hpres)
        refine pres_of_presW ?_ ?_ ?_
        · exact presW_setBC
            (presW_label (presW_jump
              (presW_ite (presW_label (presW_comment w1) _)
                (presW_comment (presW_value (presW_label (presW_comment w1) _) _ _))) _) _)
            _ _
        · simp [asmCreateLabel]
        · simp [asmCreateLabel]
    · exact absurd h (by simp)
  -- emitterIter: malformed child list
  · intro ctx node hno c' h
    rw [emitterIter.eq_def] at h
    split at h
    · rename_i init' cond' iter' tl' heq
      exact (hno init' cond' iter' tl' heq).elim
    · exact absurd h (by simp)
  -- emitterLoop: null l child
  · intro ctx node hl c' h
    rw [emitterLoop.eq_def] at h
    split at h
    · exact absurd h (by simp)
    · rename_i lc heq
      rw [hl] at heq
      exact absurd heq (by simp)
  -- emitterLoop: do-while shape
  · intro ctx node q1 q2 q3 ctxA thenB hl hcode ctxB ih c' h
    rw [emitterLoop.eq_def] at h
    split at h
    · exact absurd h (by simp)
    · rename_i lc heq
      rw [hl] at heq
      injection heq with he
      subst he
      rw [if_pos hcode] at h
      obtain ⟨cb, hcb, h2⟩ := bindE_ok_inv h
      have hpres := ih cb hcb
      try dsimp only [] at h2
      split at h2
      · exact absurd h2 (by simp)
      · rename_i cond heq2
        injection h2 with h2
        subst h2
        have w0 : presW ctx cb :=
          presW_trans
            (presW_label (presW_setBC
              (presW_createLabel (presW_createLabel (presW_createLabel (presW_refl ctx) _) _) _)
              _ _) _)
            (presW_of_pres hpres)
        refine pres_of_presW ?_ ?_ ?_
        · exact presW_setBC
            (presW_label (presW_jump
              (presW_branch (presW_value (presW_label (presW_comment w0) _) _ _) _ _) _) _)
            _ _
        · simp [asmCreateLabel]
        · simp [asmCreateLabel]
  -- emitterLoop: while shape with null r child
  · intro ctx node thenB hl hncode hr c' h
    rw [emitterLoop.eq_def] at h
    split at h
    · exact absurd h (by simp)
    · rename_i lc heq
      rw [hl] at heq
      injection heq with he
      subst he
      rw [if_neg hncode] at h
      split at h
      · exact absurd h (by simp)
      · rename_i code heq2
        rw [hr] at heq2
        exact absurd heq2 (by simp)
  -- emitterLoop: while shape
  · intro ctx node q1 q2 q3 ctxA thenB hl hncode r1 ctxB code hr ih c' h
    rw [emitterLoop.eq_def] at h
    split at h
    · exact absurd h (by simp)
    · rename_i lc heq
      rw [hl] at heq
      injection heq with he
      subst he
      rw [if_neg hncode] at h
      split at h
      · exact absurd h (by simp)
      · rename_i code' heq2
        rw [hr] at heq2
        injection heq2 with he2
        subst he2
        obtain ⟨cb, hcb, h2⟩ := bindE_ok_inv h
        have hpres := ih cb hcb
        try dsimp only [] at h2
        injection h2 with h2
        subst h2
        have w0 : presW ctx cb :=
          presW_trans
            (presW_label (presW_branch (presW_value (presW_setBC
              (presW_createLabel (presW_createLabel (presW_createLabel (presW_refl ctx) _) _) _)
              _ _) _ _) _ _) _)
            (presW_of_pres hpres)
        refine pres_of_presW ?_ ?_ ?_
        · exact presW_setBC
            (presW_label (presW_jump
              (presW_branch (presW_value (presW_label (presW_comment w0) _) _ _) _ _) _) _)
            _ _
        · simp [asmCreateLabel]
        · simp [asmCreateLabel]
  -- emitterBranch: no condition child
  · intro ctx node hh c' h
    rw [emitterBranch.eq_def] at h
    split at h
    · exact absurd h (by simp)
    · rename_i cond heq
      rw [hh] at heq
      exact absurd heq (by simp)
  -- emitterBranch: null l child
  · intro ctx node cond hh hl c' h
    rw [emitterBranch.eq_def] at h
    split at h
    · exact absurd h (by simp)
    · rename_i cond' heq
      split at h
      · exact absurd h (by simp)
      · rename_i thenB heq2
        rw [hl] at heq2
        exact absurd heq2 (by simp)
  -- emitterBranch: main shape
  · intro ctx node q1 q2 cond hh r1 ctxA thenB hl ihThen ihElse c' h
    rw [emitterBranch.eq_def] at h
    split at h
    · exact absurd h (by simp)
    · rename_i cond' heq
      rw [hh] at heq
      injection heq with he
      subst he
      split at h
      · exact absurd h (by simp)
      · rename_i thenB' heq2
        rw [hl] at heq2
        injection heq2 with he2
        subst he2
        obtain ⟨cb, hcb, h2⟩ := bindE_ok_inv h
        have hp1 := ihThen cb hcb
        try dsimp only [] at h2
        have w1 : pres ctx cb :=
          pres_trans
            (pres_branchOp
              (pres_value (pres_createLabel (pres_createLabel (pres_refl ctx) _) _) _ _) _ _)
            hp1
        split at h2
        · rename_i elseB heq3
          obtain ⟨cb2, hcb2, h3⟩ := bindE_ok_inv h2
          have hp2 := ihElse cb elseB heq3 cb2 hcb2
          try dsimp only [] at h3
          injection h3 with h3
          subst h3
          exact pres_label (pres_trans (pres_label (pres_jump (pres_comment w1) _) _) hp2) _
        · injection h2 with h2
          subst h2
          exact pres_label w1 _

end Fcc


namespace Fcc

/-- Statement-list lowering preserves the context like one statement does. -/
theorem emitterLineList_ok_pres :
    ∀ (l : List ast) (ctx : emitterCtx) (c' : emitterCtx),
      emitterLineList ctx l = Except.ok c' → pres ctx c' := by
  intro l
  induction l with
  | nil =>
    intro ctx c' h
    simp only [emitterLineList] at h
    injection h with h
    subst h
    exact pres_refl ctx
  | cons c rest ih =>
    intro ctx c' h
    simp only [emitterLineList] at h
    obtain ⟨c1, h1, h2⟩ := bindE_ok_inv h
    exact pres_trans (emitterLine_ok_pres ctx c c1 h1) (ih c1 c' h2)

/-- Code-block lowering preserves the context like one statement does. -/
theorem emitterCode_ok_pres :
    ∀ (ctx : emitterCtx) (node : ast) (c' : emitterCtx),
      emitterCode ctx node = Except.ok c' → pres ctx c' := by
  intro ctx node c' h
  simp only [emitterCode] at h
  obtain ⟨c1, h1, h2⟩ := bindE_ok_inv h
  simp only [Except.ok.injEq] at h2
  subst h2
  exact pres_leave (pres_trans (pres_asmEnter ctx) (emitterLineList_ok_pres _ _ _ h1))

/-- C4: lowering any loop or iteration node saves the break-to and
continue-to targets, installs fresh exit and continue labels, and restores
the saved targets after the body; equivalently, lowering any statement
leaves the Emission Context's break-to and continue-to targets equal to
their values before the call, so a break inside an inner loop targets the
inner exit label while a later break at the outer level again targets the
outer exit label. -/
theorem emitterLine_restores_break_continue :
    ∀ (ctx : emitterCtx) (node : ast) (ctx' : emitterCtx),
      emitterLine ctx node = Except.ok ctx' →
      ctx'.labelBreakTo = ctx.labelBreakTo ∧ ctx'.labelContinueTo = ctx.labelContinueTo := by
  intro ctx node ctx' h
  have hp := emitterLine_ok_pres ctx node ctx' h
  exact ⟨hp.2.2.2.1, hp.2.2.2.2.1⟩

/-- C4 witness: lowering the nested loops `while (c) { while (c) { break; }
break; }` from the initial context succeeds; the inner break jumps to the
inner loop's exit label (labelBreak 4), the outer-level break to the outer
exit label (labelBreak 1), and the break-to / continue-to fields end up
restored to their initial values. -/
theorem emitterLine_restores_break_continue_witness :
    emitterLine ctx0 outerLoopW = Except.ok resNested ∧
    resNested.labelBreakTo = ctx0.labelBreakTo ∧
    resNested.labelContinueTo = ctx0.labelContinueTo ∧
    instr.jump (some (operand.labelOp labelKind.labelBreak 4)) ∈ resNested.out ∧
    instr.jump (some (operand.labelOp labelKind.labelBreak 1)) ∈ resNested.out := by
  have h : emitterLine ctx0 outerLoopW = Except.ok resNested := by
    simp [emitterLine, emitterCode, emitterLineList, emitterBranch, emitterLoop, emitterIter,
      emitterReturn, bindE, asmComment, asmEnter, asmLeave, asmJump, asmBranch, asmLabel,
      asmCreateLabel, emitterValue, emitterDecl, astIsValueTag, ctx0, emitterInit, outerLoopW,
      outerBodyW, innerLoopW, brkBlkW, breakW, litW, resNested, arch0, syms0]
  have h2 := emitterLine_restores_break_continue ctx0 outerLoopW resNested h
  exact ⟨h, h2.1, h2.2, by simp [resNested], by simp [resNested]⟩

end Fcc

namespace Fcc

@[simp] theorem sym_label_withLabel (s : sym) (x : Nat) : (s.withLabel x).label = x := by
  cases s
  simp

@[simp] theorem sym_tag_withOffset (s : sym) (o : Int) : (s.withOffset o).tag = s.tag := by
  cases s
  simp

@[simp] theorem sym_dt_withOffset (s : sym) (o : Int) : (s.withOffset o).dt = s.dt := by
  cases s
  simp

@[simp] theorem sym_offset_withOffset (s : sym) (o : Int) : (s.withOffset o).offset = o := by
  cases s
  simp

/-- Frame allocation never changes the function symbol's label. -/
theorem emitterFnAllocateStack_label (arch : architecture) (s : sym) :
    (emitterFnAllocateStack arch s).1.label = s.label := by
  cases s with
  | mk t d c o lb =>
    simp [emitterFnAllocateStack, emitterScopeAssignOffsets]

/-- C10: emitterInit assigns the defined undefined operand to the return-to
and break-to targets but never assigns the continue-to field at all, so a
continue lowered outside any loop emits a jump whose target is the
indeterminate (never-assigned) value, while a break outside any loop emits a
jump to the well-defined undefined operand. -/
theorem emitterInit_continue_uninitialized :
    (∀ (arch : architecture) (syms : Nat → sym),
      (emitterInit arch syms).labelReturnTo = some operand.undefined ∧
      (emitterInit arch syms).labelBreakTo = some operand.undefined ∧
      (emitterInit arch syms).labelContinueTo = none) ∧
    (∀ (arch : architecture) (syms : Nat → sym) (n : ast), n.tag = astTag.astContinue →
      emitterLine (emitterInit arch syms) n =
        Except.ok { emitterInit arch syms with out := [instr.comment, instr.jump none] }) ∧
    (∀ (arch : architecture) (syms : Nat → sym) (n : ast), n.tag = astTag.astBreak →
      emitterLine (emitterInit arch syms) n =
        Except.ok { emitterInit arch syms with
          out := [instr.comment, instr.jump (some operand.undefined)] }) := by
  refine ⟨fun arch syms => ⟨rfl, rfl, rfl⟩, ?_, ?_⟩
  · intro arch syms n ht
    simp [emitterLine, ht, emitterInit, asmComment, asmJump]
  · intro arch syms n ht
    simp [emitterLine, ht, emitterInit, asmComment, asmJump]

/-- C10 witness: from the freshly created context, lowering a continue emits
a jump to the indeterminate target (none) and lowering a break emits a jump
to the defined undefined operand. -/
theorem emitterInit_continue_uninitialized_witness :
    (emitterInit arch0 syms0).labelContinueTo = none ∧
    emitterLine ctx0 continueW = Except.ok { ctx0 with out := [instr.comment, instr.jump none] } ∧
    emitterLine ctx0 breakW =
      Except.ok { ctx0 with out := [instr.comment, instr.jump (some operand.undefined)] } := by
  refine ⟨(emitterInit_continue_uninitialized.1 arch0 syms0).2.2, ?_, ?_⟩
  · exact emitterInit_continue_uninitialized.2.1 arch0 syms0 continueW rfl
  · exact emitterInit_continue_uninitialized.2.2 arch0 syms0 breakW rfl

/-- C8: a tag outside the handled set at statement position or at top level
makes the lowering return the fatal internal-consistency failure naming the
function and the offending tag; at top level the error is returned without
lowering any further top-level node. -/
theorem unhandled_tag_fatal :
    (∀ (ctx : emitterCtx) (node : ast),
      node.tag ≠ astTag.astBranch → node.tag ≠ astTag.astLoop → node.tag ≠ astTag.astIter →
      node.tag ≠ astTag.astCode → node.tag ≠ astTag.astReturn → node.tag ≠ astTag.astBreak →
      node.tag ≠ astTag.astContinue → node.tag ≠ astTag.astDecl →
      astIsValueTag node.tag = false → node.tag ≠ astTag.astEmpty →
      emitterLine ctx node = Except.error (emitError.unhandled "emitterLine" node.tag)) ∧
    (∀ (ctx : emitterCtx) (c : ast) (rest : List ast),
      c.tag ≠ astTag.astUsing → c.tag ≠ astTag.astFnImpl → c.tag ≠ astTag.astDecl →
      c.tag ≠ astTag.astEmpty →
      emitterModuleList ctx (c :: rest) =
        Except.error (emitError.unhandled "emitterModule" c.tag)) := by
  constructor
  · intro ctx node h1 h2 h3 h4 h5 h6 h7 h8 h9 h10
    simp [emitterLine, h1, h2, h3, h4, h5, h6, h7, h8, h9, h10]
  · intro ctx c rest h1 h2 h3 h4
    simp [emitterModuleList, bindE, h1, h2, h3, h4]

/-- C8 witness: a module-tagged node at statement position is rejected with
the fatal failure naming the tag, and an unhandled tag at top level aborts
the module iteration before any following node (here a function
implementation) is lowered. -/
theorem unhandled_tag_fatal_witness :
    emitterLine ctx0 badLineW =
      Except.error (emitError.unhandled "emitterLine" astTag.astModule) ∧
    emitterModuleList ctx0 [breakW, fnW] =
      Except.error (emitError.unhandled "emitterModule" astTag.astBreak) := by
  constructor
  · exact unhandled_tag_fatal.1 ctx0 badLineW (by decide) (by decide) (by decide) (by decide)
      (by decide) (by decide) (by decide) (by decide) (by decide) (by decide)
  · exact unhandled_tag_fatal.2 ctx0 breakW [fnW] (by decide) (by decide) (by decide) (by decide)

/-- C9: when lowering a function implementation, the mangler assigns a label
only if the symbol's label is unset (0); after lowering, the label is the
mangled one when it was unset and the old one otherwise, so lowering the same
node a second time does not reassign a new label when one is already set. -/
theorem emitterFnImpl_label_idempotent :
    (∀ (ctx : emitterCtx) (node : ast) (i : Nat) (ctx' : emitterCtx),
      node.symbol = some i → emitterFnImpl ctx node = Except.ok ctx' →
      (ctx'.syms i).label =
        (if (ctx.syms i).label = 0 then ctx.arch.symbolMangler (ctx.syms i)
         else (ctx.syms i).label)) ∧
    (∀ (ctx : emitterCtx) (node : ast) (i : Nat) (c1 c2 : emitterCtx),
      node.symbol = some i → emitterFnImpl ctx node = Except.ok c1 →
      (c1.syms i).label ≠ 0 → emitterFnImpl c1 node = Except.ok c2 →
      (c2.syms i).label = (c1.syms i).label) := by
  have key : ∀ (ctx : emitterCtx) (node : ast) (i : Nat) (ctx' : emitterCtx),
      node.symbol = some i → emitterFnImpl ctx node = Except.ok ctx' →
      (ctx'.syms i).label =
        (if (ctx.syms i).label = 0 then ctx.arch.symbolMangler (ctx.syms i)
         else (ctx.syms i).label) := by
    intro ctx node i ctx' hsym h
    simp only [emitterFnImpl] at h
    rw [hsym] at h
    simp only [] at h
    cases hr : node.r with
    | none =>
      rw [hr] at h
      simp at h
    | some body =>
      rw [hr] at h
      simp only [] at h
      obtain ⟨cb, hcb, h2⟩ := bindE_ok_inv h
      simp only [Except.ok.injEq] at h2
      subst h2
      have hp := emitterCode_ok_pres _ _ _ hcb
      have hs : cb.syms = updateSyms ctx.syms i
          (emitterFnAllocateStack ctx.arch
            (if (ctx.syms i).label = 0 then
              (ctx.syms i).withLabel (ctx.arch.symbolMangler (ctx.syms i))
             else ctx.syms i)).1 := by
        have := hp.2.1
        simpa [asmFnPrologue, asmComment, asmCreateLabel] using this
      simp only [asmFnEpilogue]
      rw [hs]
      simp [updateSyms, emitterFnAllocateStack_label]
      try split <;> simp_all
  refine ⟨key, ?_⟩
  intro ctx node i c1 c2 hsym h1 hne h2
  rw [key c1 node i c2 hsym h2, if_neg hne]

/-- C9 witness: lowering `fnW` once from `ctx0` assigns label 1 via the
mangler (the stored symbol's label was 0); lowering it again from the
resulting context keeps label 1. -/
theorem emitterFnImpl_label_idempotent_witness :
    emitterFnImpl ctx0 fnW = Except.ok ctxAfterFn ∧
    (ctxAfterFn.syms 0).label = 1 ∧
    emitterFnImpl ctxAfterFn fnW = Except.ok ctxAfterFn2 ∧
    (ctxAfterFn2.syms 0).label = (ctxAfterFn.syms 0).label := by
  have h1 : emitterFnImpl ctx0 fnW = Except.ok ctxAfterFn := by
    simp [emitterFnImpl, fnW, fnBodyW, retValW, retVoidW, litW, ctx0, emitterInit, arch0, syms0,
      emitterFnAllocateStack, emitterScopeAssignOffsets, scopeAssignList, assignParams,
      typeGetSize, typeGetReturn, asmCreateLabel, asmComment, asmFnPrologue, asmFnEpilogue,
      emitterCode, emitterLineList, emitterLine, emitterReturn, emitterValue, asmEnter, asmLeave,
      asmJump, bindE, astIsValueTag, ctxAfterFn, cbOutW, symAfter, updateSyms]
  have h2 : emitterFnImpl ctxAfterFn fnW = Except.ok ctxAfterFn2 := by
    simp [emitterFnImpl, fnW, fnBodyW, retValW, retVoidW, litW, ctx0, emitterInit, arch0, syms0,
      emitterFnAllocateStack, emitterScopeAssignOffsets, scopeAssignList, assignParams,
      typeGetSize, typeGetReturn, asmCreateLabel, asmComment, asmFnPrologue, asmFnEpilogue,
      emitterCode, emitterLineList, emitterLine, emitterReturn, emitterValue, asmEnter, asmLeave,
      asmJump, bindE, astIsValueTag, ctxAfterFn, ctxAfterFn2, cbOutW, symAfter, updateSyms]
  have h3 : (ctxAfterFn.syms 0).label = 1 := by
    have := emitterFnImpl_label_idempotent.1 ctx0 fnW 0 ctxAfterFn rfl h1
    simpa [ctx0, emitterInit, syms0, arch0] using this
  refine ⟨h1, h3, h2, ?_⟩
  exact emitterFnImpl_label_idempotent.2 ctx0 fnW 0 ctxAfterFn ctxAfterFn2 rfl h1
    (by rw [h3]; decide) h2

end Fcc

namespace Fcc

/-- C5: for any function-implementation node, lowering emits exactly one
epilogue, at the function's single return label, which is the return-to
target in force throughout the body; a return with a value evaluates it with
the place-into-return-slot request and jumps to the current return-to target,
and a value-less return emits only the jump. -/
theorem emitterFnImpl_single_epilogue :
    (∀ (ctx : emitterCtx) (node : ast) (i : Nat) (body : ast) (cb : emitterCtx),
      node.symbol = some i → node.r = some body →
      emitterCode (fnBodyCtx ctx i) body = Except.ok cb →
      emitterFnImpl ctx node = Except.ok { cb with out := cb.out ++
        [instr.fnEpilogue (operand.labelOp labelKind.labelReturn ctx.nextLabel)] } ∧
      epiCount ({ cb with out := cb.out ++
        [instr.fnEpilogue (operand.labelOp labelKind.labelReturn ctx.nextLabel)] }).out =
          epiCount ctx.out + 1 ∧
      cb.labelReturnTo = some (operand.labelOp labelKind.labelReturn ctx.nextLabel)) ∧
    (∀ (ctx : emitterCtx) (node v : ast), node.r = some v →
      emitterReturn ctx node = { ctx with out := ctx.out ++
        [instr.eval v request.requestReturn, instr.jump ctx.labelReturnTo] }) ∧
    (∀ (ctx : emitterCtx) (node : ast), node.r = none →
      emitterReturn ctx node = { ctx with out := ctx.out ++ [instr.jump ctx.labelReturnTo] }) := by
  refine ⟨?_, ?_, ?_⟩
  · intro ctx node i body cb hsym hr hcb
    have hp := emitterCode_ok_pres _ _ _ hcb
    have hret : cb.labelReturnTo = some (operand.labelOp labelKind.labelReturn ctx.nextLabel) := by
      rw [hp.2.2.1]
      simp [fnBodyCtx]
    refine ⟨?_, ?_, hret⟩
    · simp only [emitterFnImpl]
      rw [hsym]
      simp only []
      rw [hr]
      simp only []
      simp only [fnBodyCtx] at hcb
      simp only [asmComment, asmFnPrologue, asmCreateLabel, asmFnEpilogue]
      simp only [List.append_assoc, List.singleton_append, List.cons_append, List.nil_append]
      rw [hcb]
      simp [asmFnEpilogue]
    · obtain ⟨δ, hout, hδ⟩ := hp.2.2.2.2.2
      have hδ' : δ.countP isEpilogue = 0 := hδ
      simp [fnBodyCtx, epiCount, isEpilogue, List.countP_append, List.countP_cons, hδ', hout]
      all_goals omega
  · intro ctx node v hr
    simp only [emitterReturn]
    rw [hr]
    simp [emitterValue, asmJump]
  · intro ctx node hr
    simp only [emitterReturn]
    rw [hr]
    simp [asmJump]

/-- C5 witness: the function `fnW`, whose body holds two return statements,
lowers with exactly one epilogue, placed at the return label created for it;
both returns jump to that label, and the standalone return lowerings emitize
the value evaluation only for the value-carrying return. -/
theorem emitterFnImpl_single_epilogue_witness :
    emitterCode (fnBodyCtx ctx0 0) fnBodyW = Except.ok cbFnW ∧
    emitterFnImpl ctx0 fnW = Except.ok { cbFnW with out := cbFnW.out ++
      [instr.fnEpilogue (operand.labelOp labelKind.labelReturn 0)] } ∧
    epiCount ({ cbFnW with out := cbFnW.out ++
      [instr.fnEpilogue (operand.labelOp labelKind.labelReturn 0)] }).out =
        epiCount ctx0.out + 1 ∧
    emitterReturn ctx0 retValW = { ctx0 with out := ctx0.out ++
      [instr.eval litW request.requestReturn, instr.jump ctx0.labelReturnTo] } ∧
    emitterReturn ctx0 retVoidW = { ctx0 with out := ctx0.out ++
      [instr.jump ctx0.labelReturnTo] } := by
  have hcb : emitterCode (fnBodyCtx ctx0 0) fnBodyW = Except.ok cbFnW := by
    simp [fnBodyCtx, fnBodyW, retValW, retVoidW, litW, ctx0, emitterInit, arch0, syms0,
      emitterFnAllocateStack, emitterScopeAssignOffsets, scopeAssignList, assignParams,
      typeGetSize, typeGetReturn, emitterCode, emitterLineList, emitterLine, emitterReturn,
      emitterValue, asmEnter, asmLeave, asmJump, asmComment, bindE, astIsValueTag, cbFnW,
      cbOutW, symAfter, updateSyms]
  have hmain := emitterFnImpl_single_epilogue.1 ctx0 fnW 0 fnBodyW cbFnW rfl rfl hcb
  refine ⟨hcb, hmain.1, hmain.2.1, ?_, ?_⟩
  · exact emitterFnImpl_single_epilogue.2.1 ctx0 retValW litW rfl
  · exact emitterFnImpl_single_epilogue.2.2 ctx0 retVoidW rfl

end Fcc

namespace Fcc

/-- C6: lowering a branch node creates the else and end labels, evaluates the
condition with a flags request, emits a conditional jump to the else label
that fires when the condition is false, then the then-branch; with an else
branch it emits the jump to the end label, the else label, the else branch
and the end label; without one it emits the else label directly after the
then-branch. -/
theorem emitterBranch_structure :
    (∀ (ctx : emitterCtx) (node cond thenB elseB : ast) (cb cb2 : emitterCtx),
      node.children.head? = some cond → node.l = some thenB → node.r = some elseB →
      emitterCode (branchMid ctx cond) thenB = Except.ok cb →
      emitterCode { cb with out := cb.out ++ [instr.comment,
        instr.jump (some (operand.labelOp labelKind.labelEndIf (ctx.nextLabel + 1))),
        instr.labelDef (some (operand.labelOp labelKind.labelElse ctx.nextLabel))] } elseB =
        Except.ok cb2 →
      emitterBranch ctx node = Except.ok { cb2 with out := cb2.out ++
        [instr.labelDef (some (operand.labelOp labelKind.labelEndIf (ctx.nextLabel + 1)))] }) ∧
    (∀ (ctx : emitterCtx) (node cond thenB : ast) (cb : emitterCtx),
      node.children.head? = some cond → node.l = some thenB → node.r = none →
      emitterCode (branchMid ctx cond) thenB = Except.ok cb →
      emitterBranch ctx node = Except.ok { cb with out := cb.out ++
        [instr.labelDef (some (operand.labelOp labelKind.labelElse ctx.nextLabel))] }) := by
  constructor
  · intro ctx node cond thenB elseB cb cb2 hh hl hr hcb hcb2
    rw [emitterBranch.eq_def]
    split
    · rename_i heq
      rw [hh] at heq
      simp at heq
    · rename_i cond' heq
      rw [hh] at heq
      injection heq with he
      subst he
      split
      · rename_i heq2
        rw [hl] at heq2
        simp at heq2
      · rename_i thenB' heq2
        rw [hl] at heq2
        injection heq2 with he2
        subst he2
        simp only [branchMid] at hcb
        simp only [asmBranch, emitterValue, asmCreateLabel, List.append_assoc,
          List.singleton_append, List.cons_append, List.nil_append]
        rw [hcb]
        simp only [bindE_ok]
        split
        · rename_i elseB' heq3
          rw [hr] at heq3
          injection heq3 with he3
          subst he3
          simp only [asmLabel, asmJump, asmComment, asmCreateLabel, List.append_assoc,
            List.singleton_append, List.cons_append, List.nil_append]
          rw [hcb2]
          all_goals simp [bindE, asmLabel, asmCreateLabel]
        · rename_i heq3
          rw [hr] at heq3
          simp at heq3
  · intro ctx node cond thenB cb hh hl hr hcb
    rw [emitterBranch.eq_def]
    split
    · rename_i heq
      rw [hh] at heq
      simp at heq
    · rename_i cond' heq
      rw [hh] at heq
      injection heq with he
      subst he
      split
      · rename_i heq2
        rw [hl] at heq2
        simp at heq2
      · rename_i thenB' heq2
        rw [hl] at heq2
        injection heq2 with he2
        subst he2
        simp only [branchMid] at hcb
        simp only [asmBranch, emitterValue, asmCreateLabel, List.append_assoc,
          List.singleton_append, List.cons_append, List.nil_append]
        rw [hcb]
        simp only [bindE_ok]
        split
        · rename_i elseB' heq3
          rw [hr] at heq3
          simp at heq3
        · simp [asmLabel, asmCreateLabel]

/-- C6 witness (scenario C): `if (cond) { A } else { B }` lowers to the
condition evaluation, branch-if-false to the else label, A, jump to the end
label, the else label, B, and the end label. -/
theorem emitterBranch_structure_witness :
    emitterCode (branchMid ctx0 litW) thenBlkW = Except.ok branchThenW ∧
    emitterCode { branchThenW with out := branchThenW.out ++ [instr.comment,
      instr.jump (some (operand.labelOp labelKind.labelEndIf 1)),
      instr.labelDef (some (operand.labelOp labelKind.labelElse 0))] } blockW =
      Except.ok branchElseW ∧
    emitterBranch ctx0 ifElseW = Except.ok { branchElseW with out := branchElseW.out ++
      [instr.labelDef (some (operand.labelOp labelKind.labelEndIf 1))] } := by
  have h1 : emitterCode (branchMid ctx0 litW) thenBlkW = Except.ok branchThenW := by
    simp [branchMid, thenBlkW, emptyW, litW, ctx0, emitterInit, arch0, syms0, emitterCode,
      emitterLineList, emitterLine, asmEnter, asmLeave, asmComment, bindE, astIsValueTag,
      branchThenW]
  have h2 : emitterCode { branchThenW with out := branchThenW.out ++ [instr.comment,
      instr.jump (some (operand.labelOp labelKind.labelEndIf 1)),
      instr.labelDef (some (operand.labelOp labelKind.labelElse 0))] } blockW =
      Except.ok branchElseW := by
    simp [branchThenW, blockW, litW, ctx0, emitterInit, arch0, syms0, emitterCode,
      emitterLineList, emitterLine, asmEnter, asmLeave, asmComment, bindE, astIsValueTag,
      branchElseW]
  exact ⟨h1, h2, emitterBranch_structure.1 ctx0 ifElseW litW thenBlkW blockW branchThenW
    branchElseW rfl rfl rfl h1 h2⟩

end Fcc

namespace Fcc

/-- C1: a two-child loop node is lowered post-test exactly when its first
child slot (l) holds a block-tagged node, the condition then being the other
slot and checked only once per iteration, after the body; otherwise it is
lowered pre-test, with one additional condition check before the first
iteration. Both cases emit: [pre-test only: condition check with conditional
jump to exit], loop-top label, body, continue label, condition check with
conditional jump to exit, unconditional jump to the loop top, exit label. -/
theorem emitterLoop_structure :
    (∀ (ctx : emitterCtx) (node body cond : ast) (cb : emitterCtx),
      node.l = some body → body.tag = astTag.astCode → node.r = some cond →
      emitterCode (loopPostMid ctx) body = Except.ok cb →
      emitterLoop ctx node = Except.ok { cb with
        out := cb.out ++ loopTail ctx cond,
        labelBreakTo := ctx.labelBreakTo, labelContinueTo := ctx.labelContinueTo }) ∧
    (∀ (ctx : emitterCtx) (node body cond : ast) (cb : emitterCtx),
      node.l = some cond → cond.tag ≠ astTag.astCode → node.r = some body →
      emitterCode (loopPreMid ctx cond) body = Except.ok cb →
      emitterLoop ctx node = Except.ok { cb with
        out := cb.out ++ loopTail ctx cond,
        labelBreakTo := ctx.labelBreakTo, labelContinueTo := ctx.labelContinueTo }) := by
  constructor
  · intro ctx node body cond cb hl hbody hr hcb
    have hcont : cb.labelContinueTo =
        some (operand.labelOp labelKind.labelContinue (ctx.nextLabel + 2)) := by
      rw [(emitterCode_ok_pres _ _ _ hcb).2.2.2.2.1]
      simp [loopPostMid]
    rw [emitterLoop.eq_def]
    split
    · rename_i heq
      rw [hl] at heq
      simp at heq
    · rename_i lc heq
      rw [hl] at heq
      injection heq with he
      subst he
      rw [if_pos hbody]
      simp only [asmLabel, asmComment, asmJump, asmBranch, emitterValue, asmCreateLabel,
        List.append_assoc, List.singleton_append, List.cons_append, List.nil_append,
        Nat.add_assoc, Nat.reduceAdd]
      simp only [loopPostMid] at hcb
      rw [hcb]
      simp only [bindE_ok]
      split
      · rename_i heq2
        rw [hr] at heq2
        simp at heq2
      · rename_i cond' heq2
        rw [hr] at heq2
        injection heq2 with he2
        subst he2
        rw [hcont]
        simp [loopTail, asmCreateLabel]
  · intro ctx node body cond cb hl hncode hr hcb
    have hcont : cb.labelContinueTo =
        some (operand.labelOp labelKind.labelContinue (ctx.nextLabel + 2)) := by
      rw [(emitterCode_ok_pres _ _ _ hcb).2.2.2.2.1]
      simp [loopPreMid]
    rw [emitterLoop.eq_def]
    split
    · rename_i heq
      rw [hl] at heq
      simp at heq
    · rename_i lc heq
      rw [hl] at heq
      injection heq with he
      subst he
      rw [if_neg hncode]
      split
      · rename_i heq2
        rw [hr] at heq2
        simp at heq2
      · rename_i code' heq2
        rw [hr] at heq2
        injection heq2 with he2
        subst he2
        simp only [asmLabel, asmComment, asmJump, asmBranch, emitterValue, asmCreateLabel,
          List.append_assoc, List.singleton_append, List.cons_append, List.nil_append,
          Nat.add_assoc, Nat.reduceAdd]
        simp only [loopPreMid] at hcb
        rw [hcb]
        simp only [bindE_ok]
        rw [hcont]
        simp [loopTail, asmCreateLabel]

/-- C1 witness: the do-while loop `dwLoopW` (block in the first child slot)
lowers post-test: loop-top label, body, continue label, a single condition
check with conditional exit, jump to the loop top, exit label — and the
break/continue targets are restored. -/
theorem emitterLoop_structure_witness :
    emitterCode (loopPostMid ctx0) blockW = Except.ok loopPostCbW ∧
    emitterLoop ctx0 dwLoopW = Except.ok { loopPostCbW with
      out := loopPostCbW.out ++ loopTail ctx0 litW,
      labelBreakTo := ctx0.labelBreakTo, labelContinueTo := ctx0.labelContinueTo } := by
  have h1 : emitterCode (loopPostMid ctx0) blockW = Except.ok loopPostCbW := by
    simp [loopPostMid, blockW, litW, ctx0, emitterInit, arch0, syms0, emitterCode,
      emitterLineList, asmEnter, asmLeave, bindE, loopPostCbW]
  exact ⟨h1, emitterLoop_structure.1 ctx0 dwLoopW blockW litW loopPostCbW rfl rfl rfl h1⟩

end Fcc

namespace Fcc

/-- C7: a counted-iteration node lowers in fixed order init, condition, body,
step: a declaration or expression init is lowered accordingly and an empty
init is a no-op; after the loop-top label a condition check with conditional
jump to exit is emitted only when the condition child is non-empty; after the
body and the continue label the step is evaluated with a discard request only
when non-empty; then the jump to the loop top and the exit label follow, and
the break/continue targets are restored. -/
theorem emitterIter_structure :
    ∀ (ctx : emitterCtx) (node init cond iter : ast) (tl : List ast) (body : ast)
      (cb : emitterCtx),
      node.children = init :: cond :: iter :: tl → node.l = some body →
      (init.tag = astTag.astDecl ∨ astIsValueTag init.tag = true ∨
        init.tag = astTag.astEmpty) →
      emitterCode (iterMid ctx init cond) body = Except.ok cb →
      emitterIter ctx node = Except.ok { cb with
        out := cb.out ++ iterTail ctx iter,
        labelBreakTo := ctx.labelBreakTo, labelContinueTo := ctx.labelContinueTo } := by
  intro ctx node init cond iter tl body cb hch hl hinit hcb
  have hcont : cb.labelContinueTo =
      some (operand.labelOp labelKind.labelContinue (ctx.nextLabel + 2)) := by
    rw [(emitterCode_ok_pres _ _ _ hcb).2.2.2.2.1]
    simp [iterMid]
  rw [emitterIter.eq_def]
  split
  · rename_i init' cond' iter' tl' heq
    rw [hch] at heq
    injection heq with e1 heq
    injection heq with e2 heq
    injection heq with e3 heq
    subst e1
    subst e2
    subst e3
    split
    · rename_i hd
      simp only [iterMid] at hcb
      rw [if_pos hd] at hcb
      simp only [bindE_ok]
      try dsimp only []
      split
      · rename_i heq2
        rw [hl] at heq2
        simp at heq2
      · rename_i body' heq2
        rw [hl] at heq2
        injection heq2 with he2
        subst he2
        by_cases hc : cond.tag = astTag.astEmpty
        · simp only [if_pos hc] at hcb ⊢
          simp only [asmLabel, asmComment, asmJump, asmBranch, emitterValue, emitterDecl,
            asmCreateLabel, List.append_assoc, List.singleton_append, List.cons_append,
            List.nil_append, List.append_nil, Nat.add_assoc, Nat.reduceAdd] at hcb ⊢
          rw [hcb]
          simp only [bindE_ok]
          rw [hcont]
          by_cases hit : iter.tag = astTag.astEmpty
          · simp only [if_pos hit]
            simp [iterTail, hit, asmCreateLabel]
          · simp only [if_neg hit]
            simp [iterTail, hit, asmCreateLabel]
        · simp only [if_neg hc] at hcb ⊢
          simp only [asmLabel, asmComment, asmJump, asmBranch, emitterValue, emitterDecl,
            asmCreateLabel, List.append_assoc, List.singleton_append, List.cons_append,
            List.nil_append, List.append_nil, Nat.add_assoc, Nat.reduceAdd] at hcb ⊢
          rw [hcb]
          simp only [bindE_ok]
          rw [hcont]
          by_cases hit : iter.tag = astTag.astEmpty
          · simp only [if_pos hit]
            simp [iterTail, hit, asmCreateLabel]
          · simp only [if_neg hit]
            simp [iterTail, hit, asmCreateLabel]
    · split
      · rename_i hnd hv
        simp only [iterMid] at hcb
        rw [if_neg hnd, if_pos hv] at hcb
        simp only [bindE_ok]
        try dsimp only []
        split
        · rename_i heq2
          rw [hl] at heq2
          simp at heq2
        · rename_i body' heq2
          rw [hl] at heq2
          injection heq2 with he2
          subst he2
          by_cases hc : cond.tag = astTag.astEmpty
          · simp only [if_pos hc] at hcb ⊢
            simp only [asmLabel, asmComment, asmJump, asmBranch, emitterValue, emitterDecl,
              asmCreateLabel, List.append_assoc, List.singleton_append, List.cons_append,
              List.nil_append, List.append_nil, Nat.add_assoc, Nat.reduceAdd] at hcb ⊢
            rw [hcb]
            simp only [bindE_ok]
            rw [hcont]
            by_cases hit : iter.tag = astTag.astEmpty
            · simp only [if_pos hit]
              simp [iterTail, hit, asmCreateLabel]
            · simp only [if_neg hit]
              simp [iterTail, hit, asmCreateLabel]
          · simp only [if_neg hc] at hcb ⊢
            simp only [asmLabel, asmComment, asmJump, asmBranch, emitterValue, emitterDecl,
              asmCreateLabel, List.append_assoc, List.singleton_append, List.cons_append,
              List.nil_append, List.append_nil, Nat.add_assoc, Nat.reduceAdd] at hcb ⊢
            rw [hcb]
            simp only [bindE_ok]
            rw [hcont]
            by_cases hit : iter.tag = astTag.astEmpty
            · simp only [if_pos hit]
              simp [iterTail, hit, asmCreateLabel]
            · simp only [if_neg hit]
              simp [iterTail, hit, asmCreateLabel]
      · split
        · rename_i hnd hnv hne
          simp only [iterMid] at hcb
          rw [if_neg hnd, if_neg hnv] at hcb
          simp only [bindE_ok]
          try dsimp only []
          split
          · rename_i heq2
            rw [hl] at heq2
            simp at heq2
          · rename_i body' heq2
            rw [hl] at heq2
            injection heq2 with he2
            subst he2
            by_cases hc : cond.tag = astTag.astEmpty
            · simp only [if_pos hc] at hcb ⊢
              simp only [asmLabel, asmComment, asmJump, asmBranch, emitterValue, emitterDecl,
                asmCreateLabel, List.append_assoc, List.singleton_append, List.cons_append,
                List.nil_append, List.append_nil, Nat.add_assoc, Nat.reduceAdd] at hcb ⊢
              rw [hcb]
              simp only [bindE_ok]
              rw [hcont]
              by_cases hit : iter.tag = astTag.astEmpty
              · simp only [if_pos hit]
                simp [iterTail, hit, asmCreateLabel]
              · simp only [if_neg hit]
                simp [iterTail, hit, asmCreateLabel]
            · simp only [if_neg hc] at hcb ⊢
              simp only [asmLabel, asmComment, asmJump, asmBranch, emitterValue, emitterDecl,
                asmCreateLabel, List.append_assoc, List.singleton_append, List.cons_append,
                List.nil_append, List.append_nil, Nat.add_assoc, Nat.reduceAdd] at hcb ⊢
              rw [hcb]
              simp only [bindE_ok]
              rw [hcont]
              by_cases hit : iter.tag = astTag.astEmpty
              · simp only [if_pos hit]
                simp [iterTail, hit, asmCreateLabel]
              · simp only [if_neg hit]
                simp [iterTail, hit, asmCreateLabel]
        · rename_i hnd hnv hne
          rcases hinit with hd | hv | he
          · exact absurd hd hnd
          · exact absurd hv hnv
          · exact absurd he hne
  · rename_i hno
    exact (hno init cond iter tl hch).elim

/-- C7 witness (scenario D): `for (;;) { if (done) break; }` lowers with no
condition check at the loop top (the condition slot is empty, so `iterMid`
appends nothing after the loop-top label) and the break inside the body jumps
to the iteration's exit label (labelBreak 1). -/
theorem emitterIter_structure_witness :
    emitterCode (iterMid ctx0 emptyW emptyW) iterBodyW = Except.ok iterCbW ∧
    emitterIter ctx0 iterW = Except.ok { iterCbW with
      out := iterCbW.out ++ iterTail ctx0 emptyW,
      labelBreakTo := ctx0.labelBreakTo, labelContinueTo := ctx0.labelContinueTo } ∧
    (iterMid ctx0 emptyW emptyW).out =
      [instr.labelDef (some (operand.labelOp labelKind.labelFor 0))] ∧
    instr.jump (some (operand.labelOp labelKind.labelBreak 1)) ∈ iterCbW.out := by
  have h1 : emitterCode (iterMid ctx0 emptyW emptyW) iterBodyW = Except.ok iterCbW := by
    simp [iterMid, iterBodyW, ifBreakW, brkBlkW, breakW, emptyW, litW, ctx0, emitterInit,
      arch0, syms0, emitterCode, emitterLineList, emitterLine, emitterBranch, asmEnter,
      asmLeave, asmComment, asmJump, asmBranch, asmLabel, asmCreateLabel, emitterValue,
      bindE, astIsValueTag, iterCbW]
  refine ⟨h1, ?_, by simp [iterMid, emptyW, ctx0, emitterInit, astIsValueTag],
    by simp [iterCbW]⟩
  exact emitterIter_structure ctx0 iterW emptyW emptyW emptyW [] iterBodyW iterCbW rfl rfl
    (Or.inr (Or.inr rfl)) h1

end Fcc


namespace Fcc

@[simp] theorem scopeAssign_fst_tag (arch : architecture) (s : sym) (off : Int) :
    (emitterScopeAssignOffsets arch s off).1.tag = s.tag := by
  cases s
  simp [emitterScopeAssignOffsets]

@[simp] theorem scopeAssign_fst_children (arch : architecture) (s : sym) (off : Int) :
    (emitterScopeAssignOffsets arch s off).1.children = (scopeAssignList arch s.children off).1 := by
  cases s
  simp [emitterScopeAssignOffsets]

theorem walkedIdsSizeList_nonneg (arch : architecture) (l : List sym) :
    0 ≤ walkedIdsSizeList arch l := by
  induction l using walkedIdsSizeList.induct arch with
  | case1 => simp [walkedIdsSizeList]
  | case2 s rest ih1 ih2 =>
    rw [walkedIdsSizeList]
    have h1 : 0 ≤ (if s.tag = symTag.symScope then walkedIdsSizeList arch s.children
        else if s.tag = symTag.symId then (typeGetSize arch s.dt : Int) else 0) := by
      split
      · exact ih1 (by assumption)
      · split
        · positivity
        · exact le_refl 0
    omega

/-- The final running offset of the auto-variable walk equals the initial
offset minus the total size of the walked identifiers. -/
theorem scopeAssign_final (arch : architecture) :
    ∀ (s : sym) (off : Int),
      (emitterScopeAssignOffsets arch s off).2 = off - walkedIdsSize arch s := by
  refine emitterScopeAssignOffsets.induct arch
    (fun s off => (emitterScopeAssignOffsets arch s off).2 = off - walkedIdsSize arch s)
    (fun l off => (scopeAssignList arch l off).2 = off - walkedIdsSizeList arch l)
    ?_ ?_ ?_
  · intro off t d c o lb ih
    simp [emitterScopeAssignOffsets, walkedIdsSize, ih]
  · intro off
    simp [scopeAssignList, walkedIdsSizeList]
  · intro off s rest hp ih1 ih2
    simp only [scopeAssignList, walkedIdsSizeList]
    by_cases hs : s.tag = symTag.symScope
    · simp only [if_pos hs]
      simp only [hp, dif_pos hs] at ih2
      rw [ih1] at ih2
      rw [ih1, ih2]
      simp only [walkedIdsSize]
      omega
    · by_cases hi : s.tag = symTag.symId
      · simp only [if_neg hs, if_pos hi]
        simp only [hp, dif_neg hs, dif_pos hi] at ih2
        rw [ih2]
        omega
      · simp only [if_neg hs, if_neg hi]
        simp only [hp, dif_neg hs, dif_neg hi] at ih2
        rw [ih2]
        omega

/-- Every identifier the auto-variable walk visits receives a negative
offset, provided every walked identifier's type has size at least one and the
walk starts at a non-positive offset. -/
theorem scopeAssign_neg (arch : architecture) :
    ∀ (s : sym) (off : Int),
      walkedIdsAll (fun c => decide (1 ≤ typeGetSize arch c.dt)) s = true → off ≤ 0 →
      walkedIdsAll (fun c => decide (c.offset < 0))
        (emitterScopeAssignOffsets arch s off).1 = true := by
  refine emitterScopeAssignOffsets.induct arch
    (fun s off =>
      walkedIdsAll (fun c => decide (1 ≤ typeGetSize arch c.dt)) s = true → off ≤ 0 →
      walkedIdsAll (fun c => decide (c.offset < 0))
        (emitterScopeAssignOffsets arch s off).1 = true)
    (fun l off =>
      walkedIdsAllList (fun c => decide (1 ≤ typeGetSize arch c.dt)) l = true → off ≤ 0 →
      walkedIdsAllList (fun c => decide (c.offset < 0)) (scopeAssignList arch l off).1 = true)
    ?_ ?_ ?_
  · intro off t d c o lb ih hP hoff
    simp only [walkedIdsAll, sym_children_mk] at hP
    simp only [walkedIdsAll, emitterScopeAssignOffsets, sym_children_mk]
    exact ih hP hoff
  · intro off hP hoff
    simp [scopeAssignList, walkedIdsAllList]
  · intro off s rest hp ih1 ih2 hP hoff
    rw [walkedIdsAllList, Bool.and_eq_true] at hP
    obtain ⟨hPhead, hPrest⟩ := hP
    simp only [scopeAssignList]
    by_cases hs : s.tag = symTag.symScope
    · rw [if_pos hs] at hPhead
      simp only [hp, dif_pos hs] at ih2
      simp only [if_pos hs]
      simp only [walkedIdsAllList, Bool.and_eq_true]
      have hp2 : (emitterScopeAssignOffsets arch s off).2 ≤ 0 := by
        rw [scopeAssign_final arch s off]
        have := walkedIdsSizeList_nonneg arch s.children
        simp only [walkedIdsSize]
        omega
      refine ⟨?_, ih2 hPrest hp2⟩
      rw [scopeAssign_fst_tag, if_pos hs, scopeAssign_fst_children]
      have hhead := ih1 (by simpa [walkedIdsAll] using hPhead) hoff
      simpa [walkedIdsAll, scopeAssign_fst_children] using hhead
    · by_cases hi : s.tag = symTag.symId
      · rw [if_neg hs, if_pos hi] at hPhead
        simp only [decide_eq_true_eq] at hPhead
        simp only [hp, dif_neg hs, dif_pos hi] at ih2
        simp only [if_neg hs, if_pos hi]
        simp only [walkedIdsAllList, Bool.and_eq_true]
        refine ⟨?_, ih2 hPrest (by omega)⟩
        simp only [sym_tag_withOffset, if_neg hs, if_pos hi, sym_offset_withOffset,
          decide_eq_true_eq]
        omega
      · simp only [hp, dif_neg hs, dif_neg hi] at ih2
        simp only [if_neg hs, if_neg hi]
        simp only [walkedIdsAllList, Bool.and_eq_true]
        exact ⟨by rw [if_neg hs, if_neg hi], ih2 hPrest hoff⟩

end Fcc

namespace Fcc

theorem fnAlloc_children (arch : architecture) (fn : sym) :
    (emitterFnAllocateStack arch fn).1.children
      = (scopeAssignList arch (assignParams arch fn.children (paramStart arch fn)) 0).1 := by
  obtain ⟨t, d, c, o, lb⟩ := fn
  simp [emitterFnAllocateStack, emitterScopeAssignOffsets, paramStart]

theorem fnAlloc_frame (arch : architecture) (fn : sym) :
    (emitterFnAllocateStack arch fn).2
      = -((emitterScopeAssignOffsets arch
            (fn.withChildren (assignParams arch fn.children (paramStart arch fn))) 0).2) := by
  obtain ⟨t, d, c, o, lb⟩ := fn
  simp [emitterFnAllocateStack, paramStart]

/-- Parameter loop of emitterFnAllocateStack on an all-parameter prefix: the
k-th parameter receives the starting offset plus the sizes of the preceding
parameters. -/
theorem assignParams_getD_params (arch : architecture) :
    ∀ (ps rest : List sym) (k : Nat) (off : Int),
      (∀ p ∈ ps, p.tag = symTag.symParam) → k < ps.length →
      (assignParams arch (ps ++ rest) off).getD k d0
        = (ps.getD k d0).withOffset (off + sizeSum arch (ps.take k)) := by
  intro ps
  induction ps with
  | nil => intro rest k off hps hk; simp at hk
  | cons p ps ih =>
    intro rest k off hps hk
    have hpt : p.tag = symTag.symParam := hps p (List.mem_cons_self p ps)
    simp only [List.cons_append, assignParams, if_pos hpt]
    cases k with
    | zero =>
      simp [List.getD_cons_zero, sizeSum]
    | succ k =>
      simp only [List.getD_cons_succ, List.take_succ_cons, sizeSum, List.append_eq]
      rw [ih rest k (off + (typeGetSize arch p.dt : Int))
        (fun q hq => hps q (List.mem_cons_of_mem p hq)) (by simpa using hk)]
      congr 1
      ring

/-- Parameter loop of emitterFnAllocateStack: the loop stops at the first
non-parameter child, leaving every child from that point on untouched. -/
theorem assignParams_getD_frozen (arch : architecture) :
    ∀ (l : List sym) (off : Int) (j m : Nat),
      m < j → m < l.length → (l.getD m d0).tag ≠ symTag.symParam →
      (assignParams arch l off).getD j d0 = l.getD j d0 := by
  intro l
  induction l with
  | nil => intro off j m hmj hml hmt; simp at hml
  | cons s rest ih =>
    intro off j m hmj hml hmt
    by_cases hs : s.tag = symTag.symParam
    · simp only [assignParams, if_pos hs]
      cases m with
      | zero =>
        simp only [List.getD_cons_zero] at hmt
        exact absurd hs hmt
      | succ m =>
        cases j with
        | zero => omega
        | succ j =>
          simp only [List.getD_cons_succ]
          exact ih (off + (typeGetSize arch s.dt : Int)) j m (by omega)
            (by simpa using hml) (by simpa using hmt)
    · simp only [assignParams, if_neg hs]

/-- The auto-variable walk leaves children untouched whose tag is neither
scope nor identifier. -/
theorem scopeAssignList_getD_frozen (arch : architecture) :
    ∀ (l : List sym) (off : Int) (k : Nat),
      (l.getD k d0).tag ≠ symTag.symScope → (l.getD k d0).tag ≠ symTag.symId →
      (scopeAssignList arch l off).1.getD k d0 = l.getD k d0 := by
  intro l
  induction l with
  | nil => intro off k h1 h2; simp [scopeAssignList]
  | cons s rest ih =>
    intro off k h1 h2
    simp only [scopeAssignList]
    cases k with
    | zero =>
      simp only [List.getD_cons_zero] at h1 h2 ⊢
      rw [if_neg h1, if_neg h2]
    | succ k =>
      simp only [List.getD_cons_succ] at h1 h2 ⊢
      exact ih _ k h1 h2

end Fcc

namespace Fcc

/-- C2: parameter offsets are assigned to the contiguous prefix of
parameter-tagged children of a function symbol in declaration order: the k-th
parameter of the prefix receives the starting offset (two words for return
address and saved base pointer, plus one more word when the return value's
storage size exceeds one word) plus the sizes of the preceding parameters;
the loop stops at the first non-parameter child, and children beyond that
point (when not touched by the auto-variable walk, i.e. neither scope- nor
identifier-tagged) keep their symbol unchanged. -/
theorem emitterFnAllocateStack_params (arch : architecture) (fn : sym)
    (ps rest : List sym) (hch : fn.children = ps ++ rest)
    (hps : ∀ p ∈ ps, p.tag = symTag.symParam) :
    (∀ k, k < ps.length →
      (emitterFnAllocateStack arch fn).1.children.getD k d0
        = (ps.getD k d0).withOffset (paramStart arch fn + sizeSum arch (ps.take k)))
    ∧ (∀ j m, m < j → m < fn.children.length →
        (fn.children.getD m d0).tag ≠ symTag.symParam →
        (fn.children.getD j d0).tag ≠ symTag.symScope →
        (fn.children.getD j d0).tag ≠ symTag.symId →
        (emitterFnAllocateStack arch fn).1.children.getD j d0
          = fn.children.getD j d0) := by
  constructor
  · intro k hk
    rw [fnAlloc_children]
    have hmem : ps.getD k d0 ∈ ps := by
      rw [List.getD_eq_getElem ps d0 hk]
      exact List.getElem_mem hk
    have hget :=
      assignParams_getD_params arch ps rest k (paramStart arch fn) hps hk
    rw [hch]
    have htag : ((assignParams arch (ps ++ rest) (paramStart arch fn)).getD k d0).tag
        = symTag.symParam := by
      rw [hget, sym_tag_withOffset]
      exact hps _ hmem
    have hfr := scopeAssignList_getD_frozen arch
      (assignParams arch (ps ++ rest) (paramStart arch fn)) 0 k
      (by rw [htag]; decide) (by rw [htag]; decide)
    rw [hfr, hget]
  · intro j m hmj hml hmt h1 h2
    rw [fnAlloc_children]
    have hfz : (assignParams arch fn.children (paramStart arch fn)).getD j d0
        = fn.children.getD j d0 :=
      assignParams_getD_frozen arch fn.children (paramStart arch fn) j m hmj hml hmt
    have hfr := scopeAssignList_getD_frozen arch
      (assignParams arch fn.children (paramStart arch fn)) 0 j
      (by rw [hfz]; exact h1) (by rw [hfz]; exact h2)
    rw [hfr, hfz]

/-- C2 witness (scenario A): word size 8, scalar return of size 8, two
4-byte parameters — the first receives offset 16, the second 20. -/
theorem emitterFnAllocateStack_params_witness :
    ((emitterFnAllocateStack arch0 fnA).1.children.getD 0 d0).offset = 16
    ∧ ((emitterFnAllocateStack arch0 fnA).1.children.getD 1 d0).offset = 20 := by
  have h := emitterFnAllocateStack_params arch0 fnA [paW, paW] []
    (by simp [fnA]) (by intro p hp; fin_cases hp <;> rfl)
  constructor
  · rw [h.1 0 (by decide)]
    simp [paW, paramStart, arch0, fnA, sizeSum, typeGetSize, typeGetReturn,
      sym.withOffset, sym.offset, sym.dt, List.getD]
  · rw [h.1 1 (by decide)]
    simp [paW, paramStart, arch0, fnA, sizeSum, typeGetSize, typeGetReturn,
      sym.withOffset, sym.offset, sym.dt, List.getD]

/-- C3: the auto-variable walk threads a single running offset: its final
value is the initial offset minus the total size of the walked identifiers;
when every walked identifier has a type of size at least one and the walk
starts at a non-positive offset, every walked identifier receives a strictly
negative offset; and a function's frame size is the negation of the final
running offset of the walk over the parameter-assigned function symbol
started at 0, which is always non-negative. -/
theorem emitterScopeAssignOffsets_structure (arch : architecture) :
    (∀ (s : sym) (off : Int),
      (emitterScopeAssignOffsets arch s off).2 = off - walkedIdsSize arch s)
    ∧ (∀ (s : sym) (off : Int),
        walkedIdsAll (fun c => decide (1 ≤ typeGetSize arch c.dt)) s = true → off ≤ 0 →
        walkedIdsAll (fun c => decide (c.offset < 0))
          (emitterScopeAssignOffsets arch s off).1 = true)
    ∧ (∀ fn : sym,
        (emitterFnAllocateStack arch fn).2
          = -((emitterScopeAssignOffsets arch
                (fn.withChildren (assignParams arch fn.children (paramStart arch fn)))
                0).2)
        ∧ 0 ≤ (emitterFnAllocateStack arch fn).2) := by
  refine ⟨scopeAssign_final arch, scopeAssign_neg arch,
    fun fn => ⟨fnAlloc_frame arch fn, ?_⟩⟩
  rw [fnAlloc_frame, scopeAssign_final]
  have := walkedIdsSizeList_nonneg arch
    (fn.withChildren (assignParams arch fn.children (paramStart arch fn))).children
  simp only [walkedIdsSize]
  omega

/-- C3 witness (scenario B): body { int x; { int y; } } with int size 4
— x receives offset -4, y receives offset -8, and the frame size is 8. -/
theorem emitterScopeAssignOffsets_structure_witness :
    walkedIdsAll (fun c => decide (1 ≤ typeGetSize arch0 c.dt)) fnB = true
    ∧ walkedIdsAll (fun c => decide (c.offset < 0))
        (emitterScopeAssignOffsets arch0 fnB 0).1 = true
    ∧ (emitterScopeAssignOffsets arch0 fnB 0).2 = 0 - walkedIdsSize arch0 fnB
    ∧ (emitterFnAllocateStack arch0 fnB).2 = 8
    ∧ (((emitterFnAllocateStack arch0 fnB).1.children.getD 0 d0).children.getD 0 d0).offset
        = -4
    ∧ ((((emitterFnAllocateStack arch0 fnB).1.children.getD 0 d0).children.getD 1
          d0).children.getD 0 d0).offset = -8 := by
  have h := emitterScopeAssignOffsets_structure arch0
  have hP : walkedIdsAll (fun c => decide (1 ≤ typeGetSize arch0 c.dt)) fnB = true := by
    simp [walkedIdsAll, walkedIdsAllList, fnB, scope1W, scope2W, xW, typeGetSize]
  refine ⟨hP, h.2.1 fnB 0 hP (le_refl 0), h.1 fnB 0, ?_, ?_, ?_⟩
  · simp [emitterFnAllocateStack, assignParams, emitterScopeAssignOffsets,
      scopeAssignList, fnB, scope1W, scope2W, xW, paramStart, arch0, typeGetSize,
      typeGetReturn, sym.withOffset]
  · simp [emitterFnAllocateStack, assignParams, emitterScopeAssignOffsets,
      scopeAssignList, fnB, scope1W, scope2W, xW, paramStart, arch0, typeGetSize,
      typeGetReturn, sym.withOffset, List.getD]
  · simp [emitterFnAllocateStack, assignParams, emitterScopeAssignOffsets,
      scopeAssignList, fnB, scope1W, scope2W, xW, paramStart, arch0, typeGetSize,
      typeGetReturn, sym.withOffset, List.getD]

end Fcc
